import Mathlib

/-!
Verification development for the Seegnify training core.

The development shallowly embeds the relevant parts of the repository:

* the Training trait of utils/training.hh, over an item-level view of the
  storage stream (the stream the trait reads and writes is produced solely by
  write_int and write_tensor and consumed by read_int and read_tensor, so the
  trait itself only observes a sequence of int and tensor items);
* the byte-level storage codec of section 4.4 of the specification
  (utils/storage.cc is not part of the provided sources, so the codec is
  modelled from the specification's words);
* the head-size arithmetic of the transformer MultiHeadAttention and
  ScaledDotProductAttention classes (the transformer model header);
* spec-modelled definitions of the Dropout node, the Conv2D node, the GRU cell
  and the backward pass of the graph engine (main/graph.cc is likewise not
  part of the provided sources);
* certified rational bounds on the real exponential, used to evaluate the
  GRU test fixture.
-/

/-! ## Tensors as the training layer sees them

A tensor is a dense 2-D array of binary32 reals in row-major order.  Elements
are modelled as rationals standing in for the binary32 values; element-wise
add and sub are exact here where binary32 rounds.  The theorems below
therefore state what the arithmetic computes - for instance the delta emitted
after an update is the tensor (w + d) - w - rather than identities such as
(w + d) - w = d that only exact arithmetic satisfies.  (x - x = 0, which the
zero-delta invariant uses, is exact in binary32 as well.) -/

/-- A dense 2-D tensor: row and column counts plus row-major element data. -/
structure TTensor where
  rows : Nat
  cols : Nat
  data : List ℚ
deriving DecidableEq

/-- Element-wise difference, keeping the left operand's dimensions
(Eigen requires equal dimensions; the model truncates to the common length).
Exact rational subtraction stands in for the source's binary32 subtraction. -/
def TTensor.sub (a b : TTensor) : TTensor :=
  ⟨a.rows, a.cols, List.zipWith (fun x y => x - y) a.data b.data⟩

/-- Element-wise sum, keeping the left operand's dimensions.  Exact rational
addition stands in for the source's binary32 addition. -/
def TTensor.add (a b : TTensor) : TTensor :=
  ⟨a.rows, a.cols, List.zipWith (fun x y => x + y) a.data b.data⟩

/-- All elements of the tensor are zero. -/
def TTensor.isZero (t : TTensor) : Bool :=
  t.data.all (fun x => x == 0)

/-- The value of a freshly constructed Variable node: an empty tensor. -/
def TTensor.empty : TTensor := ⟨0, 0, []⟩

/-! ## The training trait (utils/training.hh)

The stream passed between get_weights, set_weights, get_update and
upd_weights is abstracted to the sequence of items written to it; the
byte-level codec below justifies the abstraction (its round-trip law is the
separately verified claim about the storage codec). -/

/-- One item of the storage stream as the training trait observes it. -/
inductive Item where
  | int : Int → Item
  | tensor : TTensor → Item
deriving DecidableEq

/-- A storage stream: the sequence of items it holds. -/
abbrev Buffer := List Item

/-- read_int: consume one int item from the stream. -/
def readInt : Buffer → Option (Int × Buffer)
  | Item.int n :: rest => some (n, rest)
  | _ => none

/-- read_tensor: consume one tensor item from the stream. -/
def readTensor : Buffer → Option (TTensor × Buffer)
  | Item.tensor t :: rest => some (t, rest)
  | _ => none

/-- Consume n consecutive tensor items from the stream. -/
def readTensors : Nat → Buffer → Option (List TTensor × Buffer)
  | 0, buf => some ([], buf)
  | n + 1, buf => do
      let (t, rest) ← readTensor buf
      let (ts, rest2) ← readTensors n rest
      pure (t :: ts, rest2)

/-- The state of a Training instance: the values of the variables of the two
owned graphs, curr (live) and prev (snapshot), each in insertion order. -/
structure TrainingState where
  curr : List TTensor
  prev : List TTensor
deriving DecidableEq

/-- The error thrown by Training::get_update on a size mismatch. -/
inductive TrainError where
  | variableCountMismatch
deriving DecidableEq

/-- The variable-creation loops of Training::set_weights: append fresh (empty)
variables until the graph has at least n variables. -/
def growVars (vars : List TTensor) (n : Nat) : List TTensor :=
  vars ++ List.replicate (n - vars.length) TTensor.empty

/-- Overwrite the first vals.length variables of vars with vals, keeping the
remaining variables unchanged. -/
def overwriteFirst (vars vals : List TTensor) : List TTensor :=
  vals ++ vars.drop vals.length

/-- Training::get_weights: write the variable count of curr, then the value of
each variable of curr in insertion order. -/
def getWeights (st : TrainingState) : Buffer :=
  Item.int st.curr.length :: st.curr.map Item.tensor

/-- Training::set_weights: parse the count, create missing variables in both
graphs, then load each read tensor into the corresponding variable of both
curr and prev.  A negative count makes every loop body run zero times, exactly
as in the source; Int.toNat maps it to 0.  A malformed stream (a missing item)
is modelled as None. -/
def setWeights (st : TrainingState) (weights : Buffer) : Option TrainingState := do
  let (size, rest) ← readInt weights
  let n := size.toNat
  let curr1 := growVars st.curr n
  let prev1 := growVars st.prev n
  let (vals, _) ← readTensors n rest
  pure ⟨overwriteFirst curr1 vals, overwriteFirst prev1 vals⟩

/-- Training::get_update: fail when the two graphs hold different numbers of
variables, otherwise write the count and then curr[i] - prev[i] for each i in
insertion order.  The function is pure: it mutates neither graph. -/
def getUpdate (st : TrainingState) : Except TrainError Buffer :=
  if st.curr.length = st.prev.length then
    Except.ok (Item.int st.curr.length ::
      List.zipWith (fun c p => Item.tensor (c.sub p)) st.curr st.prev)
  else
    Except.error TrainError.variableCountMismatch

/-- The loop of Training::upd_weights: for i = 0 .. n-1 read a delta tensor
and add it into variable i of curr.  The source indexes curr_vars[i] without
any bounds check; running past the end of the variable list is undefined
behaviour, modelled as None. -/
def updVars : List TTensor → Nat → Buffer → Option (List TTensor × Buffer)
  | vars, 0, buf => some (vars, buf)
  | vars, n + 1, buf => do
      let (d, rest) ← readTensor buf
      match vars with
      | [] => none
      | v :: vs => do
          let (vs2, rest2) ← updVars vs n rest
          pure (v.add d :: vs2, rest2)

/-- Training::upd_weights: parse the count, then add each delta tensor into
the corresponding variable of curr.  prev is untouched. -/
def updWeights (st : TrainingState) (update : Buffer) : Option TrainingState := do
  let (size, rest) ← readInt update
  let (curr2, _) ← updVars st.curr size.toNat rest
  pure ⟨curr2, st.prev⟩

/-! ## The storage codec (section 4.4 of the specification)

Modelled from the spec: utils/storage.cc is not among the provided sources.
An int is 4 bytes, little-endian, signed two's complement; a string is its
length as an int followed by its raw bytes; a tensor is rows, cols (ints)
followed by the row-major element data, 4 bytes per binary32 element.  An
element is modelled by its 32-bit pattern, so tensor round-trips are
bit-exact. -/

namespace Storage

/-- A byte, as a natural number below 256. -/
abbrev Byte := Nat

/-- The 4 little-endian bytes of a natural number below 2 to the 32. -/
def bytesOfWord (n : Nat) : List Byte :=
  [n % 256, n / 256 % 256, n / 65536 % 256, n / 16777216 % 256]

/-- Recombine 4 little-endian bytes into a natural number. -/
def wordOfBytes (b0 b1 b2 b3 : Byte) : Nat :=
  b0 + 256 * b1 + 65536 * b2 + 16777216 * b3

/-- write_int: 4 bytes, little-endian, two's complement. -/
def writeInt (i : Int) : List Byte :=
  bytesOfWord (i % 4294967296).toNat

/-- read_int: consume 4 bytes and decode a signed 32-bit integer. -/
def readInt : List Byte → Option (Int × List Byte)
  | b0 :: b1 :: b2 :: b3 :: rest =>
      let n := wordOfBytes b0 b1 b2 b3
      some (if n < 2147483648 then (n : Int) else (n : Int) - 4294967296, rest)
  | _ => none

/-- write_string: length as an int, then the raw bytes. -/
def writeStr (s : List Byte) : List Byte :=
  writeInt s.length ++ s

/-- read_string: read the length, then that many raw bytes. -/
def readStr (bs : List Byte) : Option (List Byte × List Byte) := do
  let (n, rest) ← readInt bs
  if n.toNat ≤ rest.length then
    pure (rest.take n.toNat, rest.drop n.toNat)
  else
    none

/-- A serializable tensor: dimensions and the 32-bit patterns of its row-major
binary32 element data. -/
structure STensor where
  rows : Nat
  cols : Nat
  data : List Nat
deriving DecidableEq

/-- A well-formed tensor: dimensions within the signed 32-bit range, element
count equal to rows times cols, every element pattern a 32-bit word. -/
def STensor.wf (t : STensor) : Prop :=
  t.rows < 2147483648 ∧ t.cols < 2147483648 ∧
  t.data.length = t.rows * t.cols ∧ ∀ w ∈ t.data, w < 4294967296

/-- write_tensor: rows, cols, then the element data. -/
def writeTensor (t : STensor) : List Byte :=
  writeInt t.rows ++ writeInt t.cols ++ (t.data.map bytesOfWord).flatten

/-- Consume n 32-bit words (4 bytes each, little-endian). -/
def readWords : Nat → List Byte → Option (List Nat × List Byte)
  | 0, bs => some ([], bs)
  | n + 1, b0 :: b1 :: b2 :: b3 :: bs => do
      let (ws, rest) ← readWords n bs
      pure (wordOfBytes b0 b1 b2 b3 :: ws, rest)
  | _ + 1, _ => none

/-- read_tensor: read rows and cols, then rows times cols elements. -/
def readTensor (bs : List Byte) : Option (STensor × List Byte) := do
  let (r, bs1) ← readInt bs
  let (c, bs2) ← readInt bs1
  let (ws, bs3) ← readWords (r.toNat * c.toNat) bs2
  pure (⟨r.toNat, c.toNat, ws⟩, bs3)

end Storage

/-! ## Attention head-size arithmetic (the transformer model header)

ScaledDotProductAttention scales the attention logits Q Kᵀ by one over the
square root of its head_size constructor argument before adding the mask bias
and applying the row-wise softmax.  MultiHeadAttention splits its input into
heads of width emb_size / num_heads, but passes num_heads as the head_size
argument of each ScaledDotProductAttention it builds. -/

/-- Dot product of two row vectors with rational entries. -/
def dotQ (q k : List ℚ) : ℚ :=
  (List.zipWith (fun a b => a * b) q k).sum

/-- One attention logit of ScaledDotProductAttention before softmax, for
single-row q and k and a zero mask bias: (q dot k) / sqrt(head_size). -/
noncomputable def sdpaLogit (q k : List ℚ) (headSize : ℕ) : ℝ :=
  ((dotQ q k : ℚ) : ℝ) / Real.sqrt headSize

/-- The per-head width D = emb_size / num_heads that MultiHeadAttention uses
in split_heads and join_heads. -/
def mhaHeadDim (embSize numHeads : ℕ) : ℕ :=
  embSize / numHeads

/-- The head_size argument MultiHeadAttention actually passes to each
ScaledDotProductAttention it constructs: the source passes H (num_heads). -/
def mhaSdpaHeadSizeArg (embSize numHeads : ℕ) : ℕ :=
  numHeads

/-! ## The Conv2D node

Modelled from the spec: the Conv2D implementation of main/graph.cc is not
among the provided sources.  The input is a row vector of length
in_ch * in_r * in_c in channel-major-row-major layout; the kernel has shape
(out_ch * k_r, in_ch * k_c); the output is a row vector of length
out_ch * out_r * out_c where each output dimension obeys
out = (in + 2 pad - dilation (k - 1) - 1) / stride + 1, and positions outside
the padded input read as zero. -/

/-- Output spatial extent of Conv2D along one axis (floor division). -/
def convOutDim (inDim kSize stride pad dilation : ℕ) : ℕ :=
  (inDim + 2 * pad - dilation * (kSize - 1) - 1) / stride + 1

/-- Read the input at channel c, row r, column col; zero outside the input
(zero padding).  r and col are integers since padding can make them
negative. -/
def convInputAt (x : List ℚ) (inR inC c : ℕ) (r col : ℤ) : ℚ :=
  if 0 ≤ r ∧ r < inR ∧ 0 ≤ col ∧ col < inC then
    x.getD (c * (inR * inC) + r.toNat * inC + col.toNat) 0
  else 0

/-- Kernel entry at row i, column j. -/
def kernelAt (K : List (List ℚ)) (i j : ℕ) : ℚ :=
  (K.getD i []).getD j 0

/-- One output element of Conv2D, at output channel o, output row i, output
column j. -/
def conv2dEntry (inR inC inCh kR kC stride pad dilation : ℕ)
    (K : List (List ℚ)) (x : List ℚ) (o i j : ℕ) : ℚ :=
  ((List.range inCh).map (fun c =>
    ((List.range kR).map (fun a =>
      ((List.range kC).map (fun b =>
        kernelAt K (o * kR + a) (c * kC + b) *
          convInputAt x inR inC c
            ((i * stride + a * dilation : ℕ) - (pad : ℤ))
            ((j * stride + b * dilation : ℕ) - (pad : ℤ)))).sum)).sum)).sum

/-- Conv2D forward: the row-major row vector of all output channels. -/
def conv2d (inR inC inCh outCh kR kC stride pad dilation : ℕ)
    (K : List (List ℚ)) (x : List ℚ) : List ℚ :=
  let outR := convOutDim inR kR stride pad dilation
  let outC := convOutDim inC kC stride pad dilation
  (List.range (outCh * outR * outC)).map (fun idx =>
    conv2dEntry inR inC inCh kR kC stride pad dilation K x
      (idx / (outR * outC)) (idx % (outR * outC) / outC) (idx % (outR * outC) % outC))

/-! ## The Dropout node

Modelled from the spec: the Dropout implementation of main/graph.cc is not
among the provided sources.  On forward a mask is drawn whose entries are
Bernoulli(1-r) scaled by 1/(1-r); the mask is cached for the epoch; forward
multiplies the input by the mask element-wise and backward multiplies the
upstream gradient by the same cached mask.  The Bernoulli draw is modelled by
the list of keep decisions. -/

/-- The value a mask entry takes: 1/(1-r) when the unit is kept, 0 when it is
dropped. -/
def dropoutMaskVal (r : ℚ) (keep : Bool) : ℚ :=
  if keep then 1 / (1 - r) else 0

/-- The cached scaled mask determined by the keep decisions. -/
def dropoutMask (r : ℚ) (mask : List Bool) : List ℚ :=
  mask.map (dropoutMaskVal r)

/-- Dropout forward: input times the scaled mask, element-wise. -/
def dropoutForward (x : List ℚ) (r : ℚ) (mask : List Bool) : List ℚ :=
  List.zipWith (fun a b => a * b) x (dropoutMask r mask)

/-- Dropout backward: upstream gradient times the same cached mask. -/
def dropoutBackward (g : List ℚ) (r : ℚ) (mask : List Bool) : List ℚ :=
  List.zipWith (fun a b => a * b) g (dropoutMask r mask)

/-- Number of kept units. -/
def maskKeepCount (mask : List Bool) : ℕ :=
  (mask.filter id).length

/-- Mean of the scaled mask entries. -/
def maskMean (r : ℚ) (mask : List Bool) : ℚ :=
  (dropoutMask r mask).sum / mask.length

/-- Expected value of one scaled mask entry: the entry is 1/(1-r) with
probability 1-r and 0 with probability r. -/
def maskEntryExpectation (r : ℚ) : ℚ :=
  (1 - r) * (1 / (1 - r)) + r * 0

/-! ## The backward pass and the backprop flag

Modelled from the spec: Graph::backward of main/graph.cc is not among the
provided sources.  Every node carries derivative registrations, each a pair of
a parent node and a pullback; backward zeroes every gradient, seeds the output
node, then walks the nodes in reverse topological (reverse creation) order,
adding each pullback of each visited node into the parent's gradient
accumulator.  A node whose backprop flag is off is skipped: its gradient and
its pullbacks are suppressed.  Gradient values live in an arbitrary type with
zero and addition; pullbacks are arbitrary functions on it. -/

/-- A graph node as the backward pass sees it: the backprop flag and the
derivative registrations (parent index, pullback). -/
structure BNode (G : Type) where
  backprop : Bool
  regs : List (Nat × (G → G))

/-- The node at index i; indices past the end read as an inert default. -/
def nodeAt {G : Type} (g : List (BNode G)) (i : Nat) : BNode G :=
  g.getD i ⟨true, []⟩

/-- One step of the backward pass, visiting node i: when its backprop flag is
on, add each registered pullback of its (now final) gradient into the parent's
accumulator; when the flag is off, suppress the node by zeroing its gradient
and firing none of its pullbacks. -/
def bstep {G : Type} [Zero G] [Add G] (g : List (BNode G)) (grads : Nat → G)
    (i : Nat) : Nat → G :=
  let nd := nodeAt g i
  if nd.backprop then
    let gi := grads i
    nd.regs.foldl (fun gr jp => Function.update gr jp.1 (gr jp.1 + jp.2 gi)) grads
  else
    Function.update grads i 0

/-- Visit nodes i-1, i-2, ..., 0 in that order. -/
def backFrom {G : Type} [Zero G] [Add G] (g : List (BNode G)) :
    Nat → (Nat → G) → (Nat → G)
  | 0, grads => grads
  | i + 1, grads => backFrom g i (bstep g grads i)

/-- Graph::backward seeded at node F: zero every gradient, set the seed, then
visit all nodes in reverse creation order (a reverse topological order, since
every registration points to an earlier node). -/
def backwardPass {G : Type} [Zero G] [Add G] (g : List (BNode G)) (F : Nat)
    (seed : G) : Nat → G :=
  backFrom g g.length (Function.update (fun _ => 0) F seed)

/-- The graph with node m's registrations removed and its backprop flag on:
the reference against which suppression is compared. -/
def suppressNode {G : Type} (g : List (BNode G)) (m : Nat) : List (BNode G) :=
  g.set m ⟨true, []⟩

/-- Well-formed registrations: every registration of every node points to an
earlier (lower-index) node. -/
def regsWf {G : Type} (g : List (BNode G)) : Prop :=
  ∀ i < g.length, ∀ p ∈ (nodeAt g i).regs, p.1 < i

/-! ## Certified rational bounds on the real exponential

Used to evaluate the GRU fixture: every bound is an exactly computed rational.
Bounds on the real exponential come from the Taylor expansion with an explicit
remainder (12 terms on the eighth of the argument, then the eighth power), for
arguments of absolute value at most 8. -/

/-- The first 12 terms of the exponential Taylor series, exactly. -/
def expTaylor (q : ℚ) : ℚ :=
  1 + q + q ^ 2 / 2 + q ^ 3 / 6 + q ^ 4 / 24 + q ^ 5 / 120 + q ^ 6 / 720 +
    q ^ 7 / 5040 + q ^ 8 / 40320 + q ^ 9 / 362880 + q ^ 10 / 3628800 +
    q ^ 11 / 39916800

/-- The remainder bound for 12 Taylor terms on arguments of absolute value at
most 1: 13 / (12 factorial * 12) times the (even) 12th power of the
argument. -/
def expErr (q : ℚ) : ℚ :=
  q ^ 12 * 13 / 5748019200

/-- Certified rational lower bound of exp q for rational q with absolute value
at most 8: Taylor on q/8, then the eighth power. -/
def expQLo (q : ℚ) : ℚ :=
  (expTaylor (q / 8) - expErr (q / 8)) ^ 8

/-- Certified rational upper bound of exp q for rational q with absolute value
at most 8. -/
def expQHi (q : ℚ) : ℚ :=
  (expTaylor (q / 8) + expErr (q / 8)) ^ 8

/-- The logistic sigmoid over the reals. -/
noncomputable def sigmoidR (t : ℝ) : ℝ :=
  1 / (1 + Real.exp (-t))

/-! ## The GRU cell

Modelled from the spec: the GRU implementation of main/graph.cc is not among
the provided sources.  A single-cell GRU in the standard Cho form, with the
sign convention pinned by the repository's test vector:
z = sigmoid(x Wz + h Uz + bz), r = sigmoid(x Wr + h Ur + br),
candidate = tanh(x Wh + (r * h) Uh + bh), output = z * h + (1 - z) * candidate
(all products of vectors with matrices; * on vectors element-wise).  Inputs
and parameters are exact rationals (the decimal test literals); only the
nonlinearities leave the rationals. -/

/-- Column j of the product of row vector v with matrix M, exactly. -/
def dotColQ (v : List ℚ) (M : List (List ℚ)) (j : ℕ) : ℚ :=
  ((List.range v.length).map (fun i => v.getD i 0 * (M.getD i []).getD j 0)).sum

/-- A GRU gate (update or reset): sigmoid of column j of x W + h U + b. -/
noncomputable def gruGate (x h : List ℚ) (W U : List (List ℚ)) (b : List ℚ)
    (j : ℕ) : ℝ :=
  sigmoidR ((dotColQ x W j + dotColQ h U j + b.getD j 0 : ℚ) : ℝ)

/-- The GRU candidate state: tanh of column j of x Wh + (r * h) Uh + bh,
where r is the reset gate. -/
noncomputable def gruCandidate (x h : List ℚ) (Wr Ur : List (List ℚ))
    (br : List ℚ) (Wh Uh : List (List ℚ)) (bh : List ℚ) (j : ℕ) : ℝ :=
  Real.tanh (((dotColQ x Wh j + bh.getD j 0 : ℚ) : ℝ) +
    ((List.range h.length).map (fun i =>
      gruGate x h Wr Ur br i *
        ((h.getD i 0 * (Uh.getD i []).getD j 0 : ℚ) : ℝ))).sum)

/-- GRU forward, component j: z * h + (1 - z) * candidate. -/
noncomputable def gruOut (x h : List ℚ) (Wz Uz : List (List ℚ)) (bz : List ℚ)
    (Wr Ur : List (List ℚ)) (br : List ℚ) (Wh Uh : List (List ℚ))
    (bh : List ℚ) (j : ℕ) : ℝ :=
  gruGate x h Wz Uz bz j * (h.getD j 0 : ℝ) +
    (1 - gruGate x h Wz Uz bz j) * gruCandidate x h Wr Ur br Wh Uh bh j

/-! ### The repository's GRU test fixture (unittest.cc, GRU Forward) -/

/-- Fixture input x. -/
def xQ : List ℚ := [1/100, -1/50, 3/100]

/-- Fixture state h. -/
def hQ : List ℚ := [1/100, -1/50, 3/100, -3/100]

/-- Fixture update-gate input weights Wz. -/
def wzQ : List (List ℚ) := [[1, -4, 7, -9], [2, -5, 8, -9], [3, -6, 7, -9]]

/-- Fixture update-gate recurrent weights Uz. -/
def uzQ : List (List ℚ) :=
  [[3, -6, 9, -9], [2, -5, 8, -9], [1, -4, 7, -9], [-1, 1, -1, 1]]

/-- Fixture update-gate bias bz. -/
def bzQ : List ℚ := [1, 2, -3, -4]

/-- Fixture reset-gate input weights Wr. -/
def wrQ : List (List ℚ) := [[2, -5, 8, -10], [2, -5, 8, 10], [3, -6, 9, -10]]

/-- Fixture reset-gate recurrent weights Ur. -/
def urQ : List (List ℚ) :=
  [[3, -6, 9, -10], [2, -5, 8, -10], [1, -4, 7, -10], [-1, 1, -1, 1]]

/-- Fixture reset-gate bias br. -/
def brQ : List ℚ := [-1, 2, -3, -4]

/-- Fixture candidate input weights Wh. -/
def whQ : List (List ℚ) := [[-4, -7, -7, 10], [2, 5, 8, -12], [3, -6, 5, 10]]

/-- Fixture candidate recurrent weights Uh. -/
def uhQ : List (List ℚ) :=
  [[3, 6, 9, -9], [-2, 5, -8, 11], [1, -4, 7, -10], [-3, 2, -2, -3]]

/-- Fixture candidate bias bh. -/
def bhQ : List ℚ := [-1, 2, -3, -4]

/-- Fixture GRU output, component j. -/
noncomputable def gruOutF (j : ℕ) : ℝ :=
  gruOut xQ hQ wzQ uzQ bzQ wrQ urQ brQ whQ uhQ bhQ j

/-- Update-gate pre-activation of the fixture, exactly. -/
def zaQF (j : ℕ) : ℚ :=
  dotColQ xQ wzQ j + dotColQ hQ uzQ j + bzQ.getD j 0

/-- Reset-gate pre-activation of the fixture, exactly. -/
def raQF (i : ℕ) : ℚ :=
  dotColQ xQ wrQ i + dotColQ hQ urQ i + brQ.getD i 0

/-- The reset-free part of the candidate pre-activation of the fixture. -/
def caConstQF (j : ℕ) : ℚ :=
  dotColQ xQ whQ j + bhQ.getD j 0

/-- Coefficient of reset gate i in candidate pre-activation column j. -/
def rhCoefQF (i j : ℕ) : ℚ :=
  hQ.getD i 0 * (uhQ.getD i []).getD j 0

/-! # Theorems -/

/-! ## The training trait -/

/-- Reading back exactly the tensors written to the stream. -/
theorem readTensors_append (ts : List TTensor) (rest : Buffer) :
    readTensors ts.length (ts.map Item.tensor ++ rest) = some (ts, rest) := by
  induction ts with
  | nil => rfl
  | cons t ts ih =>
      simp [readTensors, readTensor, ih]

/-- The update loop succeeds when the variable list is long enough, updating
the first tensors element-wise and keeping the tail. -/
theorem updVars_ok (ts : List TTensor) : ∀ (vars : List TTensor) (rest : Buffer),
    ts.length ≤ vars.length →
    updVars vars ts.length (ts.map Item.tensor ++ rest) =
      some (List.zipWith TTensor.add (vars.take ts.length) ts ++
        vars.drop ts.length, rest) := by
  induction ts with
  | nil => intro vars rest _; simp [updVars]
  | cons t ts ih =>
      intro vars rest h
      match vars with
      | [] => simp at h
      | v :: vs =>
          simp only [List.length_cons, Nat.succ_le_succ_iff] at h
          simp [updVars, readTensor, ih vs rest h, List.zipWith]

/-- The update loop walks off the end of the variable list when the count
exceeds it: the unchecked indexing is reached. -/
theorem updVars_oob (ts : List TTensor) : ∀ (vars : List TTensor) (rest : Buffer),
    vars.length < ts.length →
    updVars vars ts.length (ts.map Item.tensor ++ rest) = none := by
  induction ts with
  | nil => intro vars rest h; simp at h
  | cons t ts ih =>
      intro vars rest h
      match vars with
      | [] => simp [updVars, readTensor]
      | v :: vs =>
          simp only [List.length_cons, Nat.succ_lt_succ_iff] at h
          simp [updVars, readTensor, ih vs rest h]

/-- C5: getUpdate fails with the variable-count-mismatch error exactly when
curr and prev hold different numbers of variables; with equal counts it
returns the count followed by curr[i] - prev[i] for each index i in insertion
order.  The embedding is a pure function of the state, so neither graph is
modified in either case. -/
theorem getUpdate_spec (st : TrainingState) :
    (st.curr.length = st.prev.length →
      getUpdate st = Except.ok (Item.int st.curr.length ::
        List.zipWith (fun c p => Item.tensor (c.sub p)) st.curr st.prev)) ∧
    (st.curr.length ≠ st.prev.length →
      getUpdate st = Except.error TrainError.variableCountMismatch) := by
  constructor
  · intro h; simp [getUpdate, h]
  · intro h; simp [getUpdate, h]

/-- Witness for C5: both branches at concrete states. -/
theorem getUpdate_spec_witness :
    getUpdate ⟨[⟨1, 1, [8]⟩], [⟨1, 1, [5]⟩]⟩ =
      Except.ok [Item.int 1, Item.tensor (TTensor.sub ⟨1, 1, [8]⟩ ⟨1, 1, [5]⟩)] ∧
    getUpdate ⟨[⟨1, 1, [8]⟩], []⟩ =
      Except.error TrainError.variableCountMismatch := by
  constructor
  · have h := (getUpdate_spec ⟨[⟨1, 1, [8]⟩], [⟨1, 1, [5]⟩]⟩).1 (by simp)
    simpa using h
  · exact (getUpdate_spec ⟨[⟨1, 1, [8]⟩], []⟩).2 (by simp)

/-- Subtracting a tensor from itself yields the all-zero tensor. -/
theorem sub_self_isZero (t : TTensor) : (t.sub t).isZero = true := by
  rcases t with ⟨r, c, d⟩
  simp only [TTensor.sub, TTensor.isZero, List.all_eq_true]
  intro x hx
  induction d with
  | nil => simp at hx
  | cons a l ih =>
      simp only [List.zipWith_cons_cons, List.mem_cons] at hx
      rcases hx with h | h
      · simp [h]
      · exact ih h

/-- Composing the update with the delta serialization: the delta emitted at
index i is the tensor (ts_i + ds_i) - ts_i exactly as the element arithmetic
computes it; no rounding property of the arithmetic is assumed. -/
theorem zipWith_sub_zipWith_add (ts : List TTensor) : ∀ ds : List TTensor,
    List.zipWith (fun c p => Item.tensor (c.sub p))
      (List.zipWith TTensor.add ts ds) ts =
    List.zipWith (fun t d => Item.tensor ((t.add d).sub t)) ts ds := by
  induction ts with
  | nil => intro ds; simp
  | cons t ts ih =>
      intro ds
      cases ds with
      | nil => simp
      | cons d ds => simp [ih ds]

/-- C1 (counterexample): a Training state whose curr and prev differ, fed a
weight buffer with count 0 - setWeights succeeds and changes nothing, and
getUpdate immediately afterwards returns a nonzero delta tensor, refuting the
claim that every delta is zero right after any setWeights. -/
theorem setWeights_stale_delta :
    setWeights ⟨[⟨1, 1, [8]⟩], [⟨1, 1, [5]⟩]⟩ [Item.int 0] =
      some ⟨[⟨1, 1, [8]⟩], [⟨1, 1, [5]⟩]⟩ ∧
    getUpdate ⟨[⟨1, 1, [8]⟩], [⟨1, 1, [5]⟩]⟩ =
      Except.ok [Item.int 1, Item.tensor ⟨1, 1, [3]⟩] ∧
    TTensor.isZero ⟨1, 1, [3]⟩ = false := by
  refine ⟨?_, ?_, ?_⟩
  · simp [setWeights, readInt, growVars, readTensors, overwriteFirst]
  · simp only [getUpdate]
    norm_num [TTensor.sub]
  · simp only [TTensor.isZero, List.all_cons, List.all_nil, Bool.and_true]
    norm_num

/-- C1 (amended): when the weight buffer's count covers every existing
variable of both graphs (in particular on a fresh Training or a full
snapshot), setWeights loads the buffer's tensors into both graphs and the
next getUpdate returns all-zero delta tensors (x - x is exact in binary32
too); and if upd_weights is then applied with a delta buffer of the same
count and no other mutation of curr (which the functional embedding
enforces), getUpdate returns the deltas of that buffer within the precision
of the element arithmetic: the delta emitted at index i is the tensor
(w_i + d_i) - w_i as the arithmetic computes it - equal to d_i exactly only
where the additions do not round. -/
theorem setWeights_then_getUpdate (st : TrainingState) (ts : List TTensor)
    (rest : Buffer) (hc : st.curr.length ≤ ts.length)
    (hp : st.prev.length ≤ ts.length) :
    setWeights st (Item.int ts.length :: (ts.map Item.tensor ++ rest)) =
      some ⟨ts, ts⟩ ∧
    getUpdate ⟨ts, ts⟩ = Except.ok (Item.int ts.length ::
      ts.map (fun t => Item.tensor (t.sub t))) ∧
    (∀ t ∈ ts, (t.sub t).isZero = true) ∧
    (∀ (ds : List TTensor) (rest2 : Buffer), ts.length = ds.length →
      updWeights ⟨ts, ts⟩ (Item.int ds.length :: (ds.map Item.tensor ++ rest2)) =
        some ⟨List.zipWith TTensor.add ts ds, ts⟩ ∧
      getUpdate ⟨List.zipWith TTensor.add ts ds, ts⟩ =
        Except.ok (Item.int ds.length ::
          List.zipWith (fun t d => Item.tensor ((t.add d).sub t)) ts ds)) := by
  refine ⟨?_, ?_, fun t _ => sub_self_isZero t, ?_⟩
  · have hdrop : (growVars st.curr ts.length).drop ts.length = [] := by
      apply List.drop_eq_nil_of_le
      simp [growVars]
      omega
    have hdrop2 : (growVars st.prev ts.length).drop ts.length = [] := by
      apply List.drop_eq_nil_of_le
      simp [growVars]
      omega
    simp [setWeights, readInt, readTensors_append, overwriteFirst, hdrop, hdrop2]
  · simp [getUpdate, List.zipWith_same]
  · intro ds rest2 hlen
    constructor
    · have h := updVars_ok ds ts rest2 (le_of_eq hlen.symm)
      simp only [← hlen] at h
      simp [updWeights, readInt, ← hlen, h, List.take_length, List.drop_length,
        List.take_of_length_le (le_of_eq rfl)]
    · have hzlen : (List.zipWith TTensor.add ts ds).length = ts.length := by
        simp [hlen]
      simp [getUpdate, hzlen, zipWith_sub_zipWith_add ts ds, hlen]

/-- Witness for C1 (amended): a fresh Training, one 1 by 2 weight tensor, one
delta tensor of the same count; at these small integers the arithmetic does
not round, so (w + d) - w evaluates to d. -/
theorem setWeights_then_getUpdate_witness :
    setWeights ⟨[], []⟩ [Item.int 1, Item.tensor ⟨1, 2, [5, 6]⟩] =
      some ⟨[⟨1, 2, [5, 6]⟩], [⟨1, 2, [5, 6]⟩]⟩ ∧
    updWeights ⟨[⟨1, 2, [5, 6]⟩], [⟨1, 2, [5, 6]⟩]⟩
        [Item.int 1, Item.tensor ⟨1, 2, [1, -1]⟩] =
      some ⟨[⟨1, 2, [6, 5]⟩], [⟨1, 2, [5, 6]⟩]⟩ ∧
    getUpdate ⟨[⟨1, 2, [6, 5]⟩], [⟨1, 2, [5, 6]⟩]⟩ =
      Except.ok [Item.int 1, Item.tensor ⟨1, 2, [1, -1]⟩] := by
  have h := setWeights_then_getUpdate ⟨[], []⟩ [⟨1, 2, [5, 6]⟩] []
    (by simp) (by simp)
  have h2 := h.2.2.2 [⟨1, 2, [1, -1]⟩] [] (by simp)
  refine ⟨by simpa using h.1, ?_, ?_⟩
  · have := h2.1
    simp only [List.zipWith_cons_cons, List.zipWith_nil_right] at this
    norm_num [TTensor.add] at this
    simpa using this
  · have := h2.2
    have hadd : List.zipWith TTensor.add [(⟨1, 2, [5, 6]⟩ : TTensor)]
        [(⟨1, 2, [1, -1]⟩ : TTensor)] = [⟨1, 2, [6, 5]⟩] := by
      norm_num [TTensor.add]
    rw [hadd] at this
    norm_num [TTensor.add, TTensor.sub] at this
    simpa using this

/-- C9: upd_weights reads the count n from the buffer and indexes the first n
variables of curr with no bounds check; it stays in bounds exactly when curr
holds at least n variables, and any buffer whose count exceeds the variable
count reaches the out-of-range access (modelled as None). -/
theorem updWeights_inbounds_iff (st : TrainingState) (n : ℕ) (ts : List TTensor)
    (rest : Buffer) (h : ts.length = n) :
    (updWeights st (Item.int (n : ℤ) :: (ts.map Item.tensor ++ rest))).isSome ↔
      n ≤ st.curr.length := by
  subst h
  rcases le_or_lt ts.length st.curr.length with hle | hlt
  · have hv := updVars_ok ts st.curr rest hle
    simp [updWeights, readInt, hv, hle]
  · have hv := updVars_oob ts st.curr rest hlt
    simp [updWeights, readInt, hv]
    omega

/-- Witness for C9: in bounds with one variable and count 1; out of range with
an empty variable list and count 1. -/
theorem updWeights_inbounds_iff_witness :
    (updWeights ⟨[⟨1, 1, [2]⟩], []⟩
      [Item.int 1, Item.tensor ⟨1, 1, [3]⟩]).isSome = true ∧
    (updWeights ⟨[], []⟩ [Item.int 1, Item.tensor ⟨1, 1, [3]⟩]).isSome = false := by
  constructor
  · have h := (updWeights_inbounds_iff ⟨[⟨1, 1, [2]⟩], []⟩ 1 [⟨1, 1, [3]⟩] []
      (by simp)).mpr (by simp)
    simpa using h
  · have h := (updWeights_inbounds_iff ⟨[], []⟩ 1 [⟨1, 1, [3]⟩] [] (by simp))
    simp only [List.map_cons, List.map_nil, List.nil_append] at h
    by_contra hc
    simp only [Bool.not_eq_false] at hc
    have := h.mp (by simpa using hc)
    simp at this

/-- Indices at or past the parsed count read through growVars unchanged. -/
theorem growVars_getElem_high (l : List TTensor) (n i : ℕ) (h : n ≤ i) :
    (growVars l n)[i]? = l[i]? := by
  rcases lt_or_le i l.length with hi | hi
  · simp [growVars, List.getElem?_append, hi]
  · have h1 : l[i]? = none := by simp [hi]
    have h2 : (growVars l n).length ≤ i := by
      simp [growVars, List.length_append, List.length_replicate]
      omega
    simp [h1, List.getElem?_eq_none h2]

/-- C10: setWeights with parsed count n only grows the variable lists (to
max of the old length and n), overwrites only the first n variables of each
graph, leaves every variable at index n or beyond with its previous value,
and never decreases either variable count. -/
theorem setWeights_frame (st : TrainingState) (ts : List TTensor) (rest : Buffer) :
    ∃ curr2 prev2,
      setWeights st (Item.int ts.length :: (ts.map Item.tensor ++ rest)) =
        some ⟨curr2, prev2⟩ ∧
      curr2.length = max st.curr.length ts.length ∧
      prev2.length = max st.prev.length ts.length ∧
      st.curr.length ≤ curr2.length ∧ st.prev.length ≤ prev2.length ∧
      (∀ i, ts.length ≤ i → curr2[i]? = st.curr[i]? ∧ prev2[i]? = st.prev[i]?) := by
  refine ⟨overwriteFirst (growVars st.curr ts.length) ts,
    overwriteFirst (growVars st.prev ts.length) ts, ?_, ?_, ?_, ?_, ?_, ?_⟩
  · simp [setWeights, readInt, readTensors_append, overwriteFirst]
  · simp [overwriteFirst, growVars, List.length_append, List.length_replicate]
    omega
  · simp [overwriteFirst, growVars, List.length_append, List.length_replicate]
    omega
  · simp [overwriteFirst, growVars, List.length_append, List.length_replicate]
    omega
  · simp [overwriteFirst, growVars, List.length_append, List.length_replicate]
    omega
  · intro i hi
    have hg : ∀ l : List TTensor,
        (overwriteFirst (growVars l ts.length) ts)[i]? = l[i]? := by
      intro l
      have hlen : ts.length ≤ i := hi
      calc (ts ++ (growVars l ts.length).drop ts.length)[i]?
          = ((growVars l ts.length).drop ts.length)[i - ts.length]? := by
            rw [List.getElem?_append_right hlen]
        _ = (growVars l ts.length)[ts.length + (i - ts.length)]? := by
            rw [List.getElem?_drop]
        _ = (growVars l ts.length)[i]? := by congr 1; omega
        _ = l[i]? := growVars_getElem_high l ts.length i hi
    exact ⟨hg st.curr, hg st.prev⟩

/-- Witness for C10: a one-variable state and a count-2 buffer. -/
theorem setWeights_frame_witness :
    ∃ curr2 prev2,
      setWeights ⟨[⟨1, 1, [7]⟩], []⟩
          [Item.int 2, Item.tensor ⟨1, 1, [1]⟩, Item.tensor ⟨1, 1, [2]⟩] =
        some ⟨curr2, prev2⟩ ∧
      curr2.length = 2 ∧ prev2.length = 2 ∧
      curr2[2]? = none ∧ prev2[2]? = none := by
  obtain ⟨c2, p2, hset, hlc, hlp, _, _, hhigh⟩ :=
    setWeights_frame ⟨[⟨1, 1, [7]⟩], []⟩ [⟨1, 1, [1]⟩, ⟨1, 1, [2]⟩] []
  refine ⟨c2, p2, by simpa using hset, by simpa using hlc, by simpa using hlp, ?_, ?_⟩
  · have := (hhigh 2 (by simp)).1
    simpa using this
  · have := (hhigh 2 (by simp)).2
    simpa using this

/-! ## The storage codec -/

namespace Storage

/-- Recombining the 4 little-endian bytes of a 32-bit word recovers it. -/
theorem wordOfBytes_bytesOfWord (n : Nat) (h : n < 4294967296) :
    wordOfBytes (n % 256) (n / 256 % 256) (n / 65536 % 256) (n / 16777216 % 256) = n := by
  simp only [wordOfBytes]
  omega

/-- Round trip for a signed 32-bit int through write_int and read_int. -/
theorem readInt_writeInt (i : ℤ) (h1 : -2147483648 ≤ i) (h2 : i < 2147483648)
    (rest : List Byte) :
    readInt (writeInt i ++ rest) = some (i, rest) := by
  simp only [writeInt, bytesOfWord, List.cons_append, List.nil_append, readInt]
  have hn : ((i % 4294967296).toNat) < 4294967296 := by omega
  rw [wordOfBytes_bytesOfWord _ hn]
  congr 1
  congr 1
  omega

end Storage

namespace Storage

/-- Round trip for a string through write_string and read_string. -/
theorem readStr_writeStr (s : List Byte) (h : s.length < 2147483648)
    (rest : List Byte) :
    readStr (writeStr s ++ rest) = some (s, rest) := by
  simp only [writeStr, List.append_assoc, readStr]
  rw [readInt_writeInt (s.length : ℤ) (by omega) (by exact_mod_cast h)]
  simp [List.take_left, List.drop_left]

/-- Reading back exactly the 32-bit words written to the stream. -/
theorem readWords_flatten (ws : List Nat) (hw : ∀ w ∈ ws, w < 4294967296)
    (rest : List Byte) :
    readWords ws.length ((ws.map bytesOfWord).flatten ++ rest) = some (ws, rest) := by
  induction ws with
  | nil => rfl
  | cons w ws ih =>
      have hwlt : w < 4294967296 := hw w (List.mem_cons_self w ws)
      simp only [List.map_cons, List.flatten_cons, bytesOfWord, List.cons_append,
        List.length_cons, List.nil_append, readWords, List.append_eq]
      rw [ih (fun u hu => hw u (List.mem_cons_of_mem w hu))]
      simp [wordOfBytes_bytesOfWord w hwlt]

/-- C2: decoding the storage codec's encoding returns the original value, for
every signed 32-bit int, every string shorter than 2^31 bytes, and every
well-formed tensor; tensor dimensions and the row-major 32-bit element
patterns (binary32 bit patterns) are preserved exactly. -/
theorem codec_roundtrip :
    (∀ (i : ℤ), -2147483648 ≤ i → i < 2147483648 → ∀ rest,
      readInt (writeInt i ++ rest) = some (i, rest)) ∧
    (∀ (s : List Byte), s.length < 2147483648 → ∀ rest,
      readStr (writeStr s ++ rest) = some (s, rest)) ∧
    (∀ (t : STensor), t.wf → ∀ rest,
      readTensor (writeTensor t ++ rest) = some (t, rest)) := by
  refine ⟨readInt_writeInt, readStr_writeStr, ?_⟩
  intro t hwf rest
  obtain ⟨hr, hc, hlen, helts⟩ := hwf
  simp only [writeTensor, List.append_assoc, readTensor]
  rw [readInt_writeInt (t.rows : ℤ) (by omega) (by exact_mod_cast hr)]
  simp only [Option.bind_eq_bind, Option.some_bind]
  rw [readInt_writeInt (t.cols : ℤ) (by omega) (by exact_mod_cast hc)]
  simp only [Option.some_bind, Int.toNat_natCast]
  rw [show t.rows * t.cols = t.data.length from hlen.symm]
  rw [readWords_flatten t.data helts rest]
  rfl

/-- Witness for C2: a negative int, a 3-byte string, a 2 by 2 tensor. -/
theorem codec_roundtrip_witness :
    readInt (writeInt (-7) ++ [9]) = some (-7, [9]) ∧
    readStr (writeStr [10, 20, 30]) = some ([10, 20, 30], []) ∧
    readTensor (writeTensor ⟨2, 2, [0, 1, 4294967295, 3141592653]⟩) =
      some (⟨2, 2, [0, 1, 4294967295, 3141592653]⟩, []) := by
  refine ⟨codec_roundtrip.1 (-7) (by norm_num) (by norm_num) [9], ?_, ?_⟩
  · have h := codec_roundtrip.2.1 [10, 20, 30] (by norm_num) []
    simpa using h
  · have h := codec_roundtrip.2.2 ⟨2, 2, [0, 1, 4294967295, 3141592653]⟩
      ⟨by norm_num, by norm_num, by norm_num, by decide⟩ []
    simpa using h

end Storage

/-! ## Conv2D -/

/-- C6: Conv2D with in_r = 2, in_c = 3, one input and one output channel,
kernel [[1,2],[3,4]], stride 1, padding 1, dilation 2, applied to the
row-major flattened input [[1,2,3],[4,5,6]], produces the row vector whose
row-major 2 by 3 reshape is [[20,36,15],[4,7,2]]; both output extents obey
out = (in + 2 pad - dilation (k - 1) - 1) / stride + 1. -/
theorem conv2d_forward_fixture :
    convOutDim 2 2 1 1 2 = 2 ∧ convOutDim 3 2 1 1 2 = 3 ∧
    conv2d 2 3 1 1 2 2 1 1 2 [[1, 2], [3, 4]] [1, 2, 3, 4, 5, 6] =
      [20, 36, 15, 4, 7, 2] := by
  refine ⟨rfl, rfl, ?_⟩
  simp only [conv2d, convOutDim]
  norm_num [conv2dEntry, convInputAt, kernelAt,
    show List.range 6 = [0, 1, 2, 3, 4, 5] from rfl,
    show List.range 1 = [0] from rfl,
    show List.range 2 = [0, 1] from rfl,
    show Int.toNat 2 = 2 from rfl, show Int.toNat 3 = 3 from rfl]

/-! ## Dropout -/

/-- The sum of the scaled mask is the keep count times 1/(1-r). -/
theorem dropoutMask_sum (r : ℚ) (mask : List Bool) :
    (dropoutMask r mask).sum = (maskKeepCount mask : ℚ) * (1 / (1 - r)) := by
  induction mask with
  | nil => simp [dropoutMask, maskKeepCount]
  | cons b l ih =>
      cases b
      · simpa [dropoutMask, maskKeepCount, dropoutMaskVal, List.filter_cons]
          using ih
      · simp only [dropoutMask, maskKeepCount, dropoutMaskVal, List.filter_cons,
          List.map_cons, List.sum_cons, if_true, id] at ih ⊢
        rw [ih]
        simp only [List.length_cons]
        push_cast
        ring

/-- C4: Dropout's forward output is the input times a mask whose entries are
0 or 1/(1-r) (the Bernoulli(1-r)/(1-r) draw), the backward pass multiplies the
upstream gradient by the same cached mask, a single mask entry has expected
value exactly 1, and whenever the realised keep frequency deviates from 1-r by
at most (1-r)/100 - the event the repository's 100 by 500 test checks - the
mean of the mask is within 0.01 of 1.0. -/
theorem dropout_spec (x g : List ℚ) (r : ℚ) (mask : List Bool)
    (hr0 : 0 ≤ r) (hr1 : r < 1) :
    dropoutForward x r mask = List.zipWith (fun a m => a * m) x (dropoutMask r mask) ∧
    dropoutBackward g r mask = List.zipWith (fun a m => a * m) g (dropoutMask r mask) ∧
    (∀ m ∈ dropoutMask r mask, m = 0 ∨ m = 1 / (1 - r)) ∧
    maskEntryExpectation r = 1 ∧
    (mask.length ≠ 0 →
      |(maskKeepCount mask : ℚ) / mask.length - (1 - r)| ≤ (1 - r) / 100 →
      |maskMean r mask - 1| ≤ 1 / 100) := by
  have hne : (1 : ℚ) - r ≠ 0 := by linarith
  have hpos : (0 : ℚ) < 1 - r := by linarith
  refine ⟨rfl, rfl, ?_, ?_, ?_⟩
  · intro m hm
    rcases List.mem_map.mp hm with ⟨b, _, hb⟩
    cases b
    · left
      simp only [dropoutMaskVal, if_neg Bool.false_ne_true] at hb
      exact hb.symm
    · right
      simp only [dropoutMaskVal, if_pos rfl] at hb
      exact hb.symm
  · simp only [maskEntryExpectation]
    field_simp
  · intro hlen hdev
    have hL : (0 : ℚ) < (mask.length : ℚ) := by
      exact_mod_cast Nat.pos_of_ne_zero hlen
    have hmean : maskMean r mask - 1 =
        ((maskKeepCount mask : ℚ) / mask.length - (1 - r)) / (1 - r) := by
      simp only [maskMean, dropoutMask_sum]
      field_simp
      ring
    rw [hmean, abs_div, abs_of_pos hpos, div_le_iff₀ hpos]
    calc |(maskKeepCount mask : ℚ) / mask.length - (1 - r)|
        ≤ (1 - r) / 100 := hdev
      _ = 1 / 100 * (1 - r) := by ring

/-- Witness for C4: rate 1/5 on a length-5 mask keeping 4 units - the keep
frequency equals 1 - r exactly, so the mask mean is within 0.01 of 1. -/
theorem dropout_spec_witness :
    maskEntryExpectation (1/5) = 1 ∧
    |maskMean (1/5) [true, true, true, true, false] - 1| ≤ 1 / 100 := by
  have h := dropout_spec [1] [1] (1/5) [true, true, true, true, false]
    (by norm_num) (by norm_num)
  refine ⟨h.2.2.2.1, ?_⟩
  apply h.2.2.2.2 (by norm_num)
  norm_num [maskKeepCount, List.filter]

/-! ## Multi-head attention scaling -/

/-- C3: with embedding size 8 and 2 heads the per-head width is
D = E / H = 4 (and split_heads does split at width 4), but the source passes
H = 2 as the head_size of each ScaledDotProductAttention, so the logits of the
per-head query [1,1,1,1] against the equal key are divided by sqrt 2 instead
of sqrt (E/H) = 2: the claimed scaling by sqrt (E/H) disagrees with the code
whenever H differs from E/H.  The claim (and the spec) state the intended
semantics; the code's H argument is the slip the spec itself flags. -/
theorem mha_sdpa_scale_mismatch :
    mhaHeadDim 8 2 = 4 ∧ mhaSdpaHeadSizeArg 8 2 = 2 ∧
    sdpaLogit [1, 1, 1, 1] [1, 1, 1, 1] (mhaHeadDim 8 2) = 2 ∧
    sdpaLogit [1, 1, 1, 1] [1, 1, 1, 1] (mhaSdpaHeadSizeArg 8 2) ≠
      sdpaLogit [1, 1, 1, 1] [1, 1, 1, 1] (mhaHeadDim 8 2) := by
  have hdot : dotQ [1, 1, 1, 1] [1, 1, 1, 1] = 4 := by
    norm_num [dotQ]
  have hs4 : Real.sqrt ((4 : ℕ) : ℝ) = 2 := by
    rw [show (((4 : ℕ) : ℝ)) = 2 ^ 2 by norm_num]
    exact Real.sqrt_sq (by norm_num)
  have hlog4 : sdpaLogit [1, 1, 1, 1] [1, 1, 1, 1] (mhaHeadDim 8 2) = 2 := by
    simp only [sdpaLogit, mhaHeadDim, hdot, show (8 : ℕ) / 2 = 4 from rfl, hs4]
    norm_num
  refine ⟨rfl, rfl, hlog4, ?_⟩
  rw [hlog4]
  simp only [sdpaLogit, mhaSdpaHeadSizeArg, hdot]
  intro hcontra
  field_simp at hcontra
  have hs2 : Real.sqrt (2 : ℝ) ^ 2 = 2 := Real.sq_sqrt (by norm_num)
  nlinarith [hs2, hcontra, Real.sqrt_nonneg (2 : ℝ)]

/-! ## The backward pass and the backprop flag -/

/-- Suppressing node m leaves every other node unchanged. -/
theorem nodeAt_suppress_ne {G : Type} (g : List (BNode G)) (m i : Nat)
    (h : i ≠ m) : nodeAt (suppressNode g m) i = nodeAt g i := by
  simp only [nodeAt, suppressNode, List.getD]
  rw [List.get?_set_ne _ _ (fun hc => h hc.symm)]

/-- The suppressed node itself becomes inert: flag on, no registrations. -/
theorem nodeAt_suppress_self {G : Type} (g : List (BNode G)) (m : Nat)
    (hm : m < g.length) : nodeAt (suppressNode g m) m = ⟨true, []⟩ := by
  simp only [nodeAt, suppressNode, List.getD]
  rw [List.get?_set_eq_of_lt _ hm]
  rfl

/-- Pushing pullback contributions whose targets all avoid m preserves the
relation: states agree off m, and the first state is zero at m. -/
theorem foldl_update_rel {G : Type} [Zero G] [Add G] (m : Nat) (gi : G) :
    ∀ (regs : List (Nat × (G → G))) (s₁ s₂ : Nat → G),
      (∀ p ∈ regs, p.1 ≠ m) →
      (∀ k, k ≠ m → s₁ k = s₂ k) → s₁ m = 0 →
      (∀ k, k ≠ m →
        (regs.foldl (fun gr jp => Function.update gr jp.1 (gr jp.1 + jp.2 gi)) s₁) k =
          (regs.foldl (fun gr jp => Function.update gr jp.1 (gr jp.1 + jp.2 gi)) s₂) k) ∧
      (regs.foldl (fun gr jp => Function.update gr jp.1 (gr jp.1 + jp.2 gi)) s₁) m = 0 := by
  intro regs
  induction regs with
  | nil => intro s₁ s₂ _ hR hm0; exact ⟨hR, hm0⟩
  | cons p ps ih =>
      intro s₁ s₂ htg hR hm0
      simp only [List.foldl_cons]
      have hp : p.1 ≠ m := htg p (List.mem_cons_self p ps)
      apply ih
      · intro q hq; exact htg q (List.mem_cons_of_mem p hq)
      · intro k hk
        by_cases hkp : k = p.1
        · rw [hkp, Function.update_same, Function.update_same, hR p.1 (hkp ▸ hk)]
        · rw [Function.update_noteq hkp, Function.update_noteq hkp, hR k hk]
      · rw [Function.update_noteq (fun hc => hp hc.symm), hm0]

/-- One backward step at a node other than m, whose registrations avoid m,
preserves the relation between the run on g and the run on the suppressed
graph. -/
theorem bstep_rel {G : Type} [Zero G] [Add G] (g : List (BNode G)) (m i : Nat)
    (him : i ≠ m) (htg : ∀ p ∈ (nodeAt g i).regs, p.1 ≠ m)
    (s₁ s₂ : Nat → G) (hR : ∀ k, k ≠ m → s₁ k = s₂ k) (hm0 : s₁ m = 0) :
    (∀ k, k ≠ m → bstep g s₁ i k = bstep (suppressNode g m) s₂ i k) ∧
    bstep g s₁ i m = 0 := by
  simp only [bstep, nodeAt_suppress_ne g m i him]
  by_cases hb : (nodeAt g i).backprop
  · simp only [hb, if_true]
    rw [show s₂ i = s₁ i from (hR i him).symm]
    exact foldl_update_rel m (s₁ i) (nodeAt g i).regs s₁ s₂ htg hR hm0
  · simp only [hb, if_false, Bool.false_eq_true]
    constructor
    · intro k hk
      by_cases hki : k = i
      · subst hki; rw [Function.update_same, Function.update_same]
      · rw [Function.update_noteq hki, Function.update_noteq hki, hR k hk]
    · rw [Function.update_noteq (fun hc => him hc.symm), hm0]

/-- The backward walk from any index: the run on g keeps gradient 0 at the
suppressed node and agrees with the run on the suppressed graph everywhere
else. -/
theorem backFrom_rel {G : Type} [Zero G] [Add G] (g : List (BNode G)) (m : Nat)
    (hm : m < g.length) (hflag : (nodeAt g m).backprop = false)
    (hwf : regsWf g) :
    ∀ (j : Nat) (s₁ s₂ : Nat → G),
      (if j ≤ m then ((∀ k, k ≠ m → s₁ k = s₂ k) ∧ s₁ m = 0) else s₁ = s₂) →
      (∀ k, k ≠ m → backFrom g j s₁ k = backFrom (suppressNode g m) j s₂ k) ∧
      backFrom g j s₁ m = 0 := by
  intro j
  induction j with
  | zero =>
      intro s₁ s₂ hinv
      rw [if_pos (Nat.zero_le m)] at hinv
      exact ⟨hinv.1, hinv.2⟩
  | succ j ih =>
      intro s₁ s₂ hinv
      simp only [backFrom]
      rcases Nat.lt_trichotomy j m with h1 | h2 | h3
      · rw [if_pos (Nat.succ_le_of_lt h1)] at hinv
        have hjlen : j < g.length := Nat.lt_trans h1 hm
        have htg : ∀ p ∈ (nodeAt g j).regs, p.1 ≠ m := by
          intro p hp
          have : p.1 < j := hwf j hjlen p hp
          omega
        have hstep := bstep_rel g m j (Nat.ne_of_lt h1) htg s₁ s₂ hinv.1 hinv.2
        apply ih
        rw [if_pos (Nat.le_of_lt h1)]
        exact hstep
      · subst h2
        rw [if_neg (by omega)] at hinv
        subst hinv
        have hs1 : bstep g s₁ j = Function.update s₁ j 0 := by
          simp [bstep, hflag]
        have hs2 : bstep (suppressNode g j) s₁ j = s₁ := by
          simp [bstep, nodeAt_suppress_self g j hm]
        rw [hs1, hs2]
        apply ih
        rw [if_pos (Nat.le_refl j)]
        constructor
        · intro k hk
          rw [Function.update_noteq hk]
        · rw [Function.update_same]
      · rw [if_neg (by omega)] at hinv
        subst hinv
        have hstep : bstep g s₁ j = bstep (suppressNode g m) s₁ j := by
          simp only [bstep, nodeAt_suppress_ne g m j (Nat.ne_of_gt h3)]
        rw [← hstep]
        apply ih
        rw [if_neg (by omega)]

/-- C8: in any well-formed graph, a backward pass seeded at any output F
leaves a backprop-disabled node's gradient at zero, and the gradients of all
other nodes are exactly those of the same pass run on the graph with that
node's pullback registrations removed - no gradient propagates through them,
while every other node accumulates normally. -/
theorem backprop_off_suppresses {G : Type} [Zero G] [Add G]
    (g : List (BNode G)) (m F : Nat) (seed : G)
    (hm : m < g.length) (hflag : (nodeAt g m).backprop = false)
    (hwf : regsWf g) :
    backwardPass g F seed m = 0 ∧
    ∀ k, k ≠ m → backwardPass g F seed k =
      backwardPass (suppressNode g m) F seed k := by
  have hlen : (suppressNode g m).length = g.length := by
    simp [suppressNode]
  have h := backFrom_rel g m hm hflag hwf g.length
    (Function.update (fun _ => 0) F seed) (Function.update (fun _ => 0) F seed)
    (by rw [if_neg (by omega)])
  constructor
  · exact h.2
  · intro k hk
    have := h.1 k hk
    simpa [backwardPass, hlen] using this

/-- Witness for C8: a three-node graph over integer gradients - node 0 has
backprop off, node 2 is the output with pullbacks into nodes 0 and 1. -/
theorem backprop_off_suppresses_witness :
    backwardPass [(⟨false, []⟩ : BNode ℤ), ⟨true, []⟩,
      ⟨true, [(0, fun t => t * 2), (1, fun t => t * 3)]⟩] 2 1 0 = 0 ∧
    backwardPass [(⟨false, []⟩ : BNode ℤ), ⟨true, []⟩,
        ⟨true, [(0, fun t => t * 2), (1, fun t => t * 3)]⟩] 2 1 1 =
      backwardPass (suppressNode [(⟨false, []⟩ : BNode ℤ), ⟨true, []⟩,
        ⟨true, [(0, fun t => t * 2), (1, fun t => t * 3)]⟩] 0) 2 1 1 := by
  have h := backprop_off_suppresses
    [(⟨false, []⟩ : BNode ℤ), ⟨true, []⟩,
      ⟨true, [(0, fun t => t * 2), (1, fun t => t * 3)]⟩] 0 2 1
    (by simp) (by simp [nodeAt]) ?_
  · exact ⟨h.1, h.2 1 (by simp)⟩
  · intro i hi p hp
    simp only [List.length_cons, List.length_nil] at hi
    interval_cases i
    · simp [nodeAt] at hp
    · simp [nodeAt] at hp
    · simp only [nodeAt, List.getD] at hp
      cases hp with
      | head => norm_num
      | tail _ hp2 =>
          cases hp2 with
          | head => norm_num
          | tail _ hp3 => cases hp3

/-! ## The GRU fixture -/

theorem expTaylor_real (q : ℚ) :
    ((expTaylor q : ℚ) : ℝ) = ∑ m ∈ Finset.range 12, (q : ℝ) ^ m / m.factorial := by
  simp only [Finset.sum_range_succ, Finset.sum_range_zero, expTaylor,
    show Nat.factorial 0 = 1 from rfl, show Nat.factorial 1 = 1 from rfl,
    show Nat.factorial 2 = 2 from rfl, show Nat.factorial 3 = 6 from rfl,
    show Nat.factorial 4 = 24 from rfl, show Nat.factorial 5 = 120 from rfl,
    show Nat.factorial 6 = 720 from rfl, show Nat.factorial 7 = 5040 from rfl,
    show Nat.factorial 8 = 40320 from rfl, show Nat.factorial 9 = 362880 from rfl,
    show Nat.factorial 10 = 3628800 from rfl,
    show Nat.factorial 11 = 39916800 from rfl]
  push_cast
  ring

theorem exp_taylor_bounds (y : ℚ) (hy : |y| ≤ 1) :
    ((expTaylor y - expErr y : ℚ) : ℝ) ≤ Real.exp ((y : ℚ) : ℝ) ∧
    Real.exp ((y : ℚ) : ℝ) ≤ ((expTaylor y + expErr y : ℚ) : ℝ) := by
  have hyR : |((y : ℚ) : ℝ)| ≤ 1 := by exact_mod_cast hy
  have hb := Real.exp_bound hyR (n := 12) (by norm_num)
  have hS : ∑ m ∈ Finset.range 12, ((y : ℚ) : ℝ) ^ m / m.factorial =
      ((expTaylor y : ℚ) : ℝ) := (expTaylor_real y).symm
  have habs : |((y : ℚ) : ℝ)| ^ 12 = ((y : ℚ) : ℝ) ^ 12 := by
    rw [← abs_pow, abs_of_nonneg (by positivity)]
  rw [hS, show Nat.succ 12 = 13 from rfl,
    show Nat.factorial 12 = 479001600 from rfl, habs] at hb
  obtain ⟨h1, h2⟩ := abs_le.mp hb
  push_cast at h1 h2
  constructor
  · push_cast [expErr]
    linarith
  · push_cast [expErr]
    linarith

theorem expQ_base_pos (y : ℚ) (hy : |y| ≤ 1) :
    (0 : ℝ) ≤ ((expTaylor y - expErr y : ℚ) : ℝ) := by
  have hyR : |((y : ℚ) : ℝ)| ≤ 1 := by exact_mod_cast hy
  have h1 := (exp_taylor_bounds y hy).2
  have hexplow : (1 : ℝ) / 3 ≤ Real.exp ((y : ℚ) : ℝ) := by
    have hm1 : (-1 : ℝ) ≤ ((y : ℚ) : ℝ) := by
      have := abs_le.mp hyR
      linarith [this.1]
    have he1 : Real.exp 1 < 2.7182818286 := Real.exp_one_lt_d9
    have hpos1 : (0 : ℝ) < Real.exp 1 := Real.exp_pos 1
    have hmul : Real.exp 1 * (Real.exp 1)⁻¹ = 1 := mul_inv_cancel₀ (ne_of_gt hpos1)
    have hinv : (1 : ℝ) / 3 ≤ Real.exp (-1) := by
      rw [Real.exp_neg]
      nlinarith [hmul, he1, hpos1]
    calc (1 : ℝ) / 3 ≤ Real.exp (-1) := hinv
      _ ≤ Real.exp ((y : ℚ) : ℝ) := Real.exp_le_exp.mpr hm1
  have herrsmall : ((expErr y : ℚ) : ℝ) ≤ 13 / 5748019200 := by
    have hyp : ((y : ℚ) : ℝ) ^ 12 ≤ 1 := by
      calc ((y : ℚ) : ℝ) ^ 12 = |((y : ℚ) : ℝ)| ^ 12 := by
            rw [← abs_pow, abs_of_nonneg (by positivity)]
        _ ≤ 1 ^ 12 := pow_le_pow_left₀ (abs_nonneg _) hyR 12
        _ = 1 := one_pow 12
    push_cast [expErr]
    linarith
  push_cast at h1 ⊢
  push_cast at herrsmall hexplow
  linarith

theorem expQ_bounds (q : ℚ) (h8 : |q| ≤ 8) :
    ((expQLo q : ℚ) : ℝ) ≤ Real.exp ((q : ℚ) : ℝ) ∧
    Real.exp ((q : ℚ) : ℝ) ≤ ((expQHi q : ℚ) : ℝ) := by
  have hy1 : |q / 8| ≤ 1 := by
    rw [abs_div]
    rw [show |(8 : ℚ)| = 8 from by norm_num]
    rw [div_le_one (by norm_num)]
    exact h8
  have hexp : Real.exp ((q : ℚ) : ℝ) = Real.exp (((q / 8 : ℚ) : ℚ) : ℝ) ^ 8 := by
    rw [← Real.exp_nat_mul]
    congr 1
    push_cast
    ring
  obtain ⟨hlo, hhi⟩ := exp_taylor_bounds (q / 8) hy1
  have hpos := expQ_base_pos (q / 8) hy1
  have hexppos : (0 : ℝ) ≤ Real.exp (((q / 8 : ℚ) : ℚ) : ℝ) :=
    le_of_lt (Real.exp_pos _)
  constructor
  · rw [hexp]
    calc ((expQLo q : ℚ) : ℝ)
        = ((expTaylor (q / 8) - expErr (q / 8) : ℚ) : ℝ) ^ 8 := by
          push_cast [expQLo]
          ring
      _ ≤ Real.exp (((q / 8 : ℚ) : ℚ) : ℝ) ^ 8 := pow_le_pow_left₀ hpos hlo 8
  · rw [hexp]
    calc Real.exp (((q / 8 : ℚ) : ℚ) : ℝ) ^ 8
        ≤ ((expTaylor (q / 8) + expErr (q / 8) : ℚ) : ℝ) ^ 8 :=
          pow_le_pow_left₀ hexppos hhi 8
      _ = ((expQHi q : ℚ) : ℝ) := by
          push_cast [expQHi]
          ring

theorem expQLo_nonneg (q : ℚ) (h8 : |q| ≤ 8) : (0 : ℚ) ≤ expQLo q := by
  have hy1 : |q / 8| ≤ 1 := by
    rw [abs_div, show |(8 : ℚ)| = 8 from by norm_num, div_le_one (by norm_num)]
    exact h8
  have h := expQ_base_pos (q / 8) hy1
  have hQ : (0 : ℚ) ≤ expTaylor (q / 8) - expErr (q / 8) := by exact_mod_cast h
  exact pow_nonneg hQ 8

theorem sigmoid_bounds (q lo hi : ℚ) (h8 : |q| ≤ 8)
    (hlo : lo ≤ 1 / (1 + expQHi (-q))) (hhi : 1 / (1 + expQLo (-q)) ≤ hi) :
    (lo : ℝ) ≤ sigmoidR ((q : ℚ) : ℝ) ∧ sigmoidR ((q : ℚ) : ℝ) ≤ (hi : ℝ) := by
  have h8n : |(-q)| ≤ 8 := by rwa [abs_neg]
  obtain ⟨helo, hehi⟩ := expQ_bounds (-q) h8n
  have hcast : (((-q : ℚ)) : ℝ) = -((q : ℚ) : ℝ) := by push_cast; ring
  rw [hcast] at helo hehi
  have hLo0 : (0 : ℚ) ≤ expQLo (-q) := expQLo_nonneg (-q) h8n
  have hexppos : (0 : ℝ) < Real.exp (-((q : ℚ) : ℝ)) := Real.exp_pos _
  have hd1 : (0 : ℝ) < 1 + Real.exp (-((q : ℚ) : ℝ)) := by linarith
  have hd3 : (0 : ℝ) < 1 + ((expQLo (-q) : ℚ) : ℝ) := by
    have : (0 : ℝ) ≤ ((expQLo (-q) : ℚ) : ℝ) := by exact_mod_cast hLo0
    linarith
  constructor
  · calc (lo : ℝ) ≤ ((1 / (1 + expQHi (-q)) : ℚ) : ℝ) := by exact_mod_cast hlo
      _ = 1 / (1 + ((expQHi (-q) : ℚ) : ℝ)) := by push_cast; ring
      _ ≤ 1 / (1 + Real.exp (-((q : ℚ) : ℝ))) :=
          one_div_le_one_div_of_le hd1 (by linarith)
      _ = sigmoidR ((q : ℚ) : ℝ) := rfl
  · calc sigmoidR ((q : ℚ) : ℝ) = 1 / (1 + Real.exp (-((q : ℚ) : ℝ))) := rfl
      _ ≤ 1 / (1 + ((expQLo (-q) : ℚ) : ℝ)) :=
          one_div_le_one_div_of_le hd3 (by linarith)
      _ = ((1 / (1 + expQLo (-q)) : ℚ) : ℝ) := by push_cast; ring
      _ ≤ (hi : ℝ) := by exact_mod_cast hhi

theorem tanh_formula (x : ℝ) : Real.tanh x = 1 - 2 / (Real.exp (2 * x) + 1) := by
  rw [Real.tanh_eq_sinh_div_cosh, Real.sinh_eq, Real.cosh_eq]
  have h1 : (0 : ℝ) < Real.exp x := Real.exp_pos x
  have h2 : (0 : ℝ) < Real.exp (-x) := Real.exp_pos (-x)
  have h3 : Real.exp (2 * x) = Real.exp x * Real.exp x := by
    rw [two_mul, Real.exp_add]
  rw [h3, Real.exp_neg]
  have h4 : Real.exp x * Real.exp x + 1 > 0 := by positivity
  field_simp
  ring

theorem tanh_bounds (a b lo hi : ℚ) (x : ℝ)
    (hax : ((a : ℚ) : ℝ) ≤ x) (hxb : x ≤ ((b : ℚ) : ℝ))
    (h8a : |2 * a| ≤ 8) (h8b : |2 * b| ≤ 8)
    (hlo : lo ≤ 1 - 2 / (expQLo (2 * a) + 1))
    (hhi : 1 - 2 / (expQHi (2 * b) + 1) ≤ hi) :
    (lo : ℝ) ≤ Real.tanh x ∧ Real.tanh x ≤ (hi : ℝ) := by
  rw [tanh_formula]
  obtain ⟨hA, _⟩ := expQ_bounds (2 * a) h8a
  obtain ⟨_, hB⟩ := expQ_bounds (2 * b) h8b
  have hcA : (((2 * a : ℚ)) : ℝ) = 2 * ((a : ℚ) : ℝ) := by push_cast; ring
  have hcB : (((2 * b : ℚ)) : ℝ) = 2 * ((b : ℚ) : ℝ) := by push_cast; ring
  rw [hcA] at hA
  rw [hcB] at hB
  have hLoA : (0 : ℚ) ≤ expQLo (2 * a) := expQLo_nonneg (2 * a) h8a
  have hLoAR : (0 : ℝ) ≤ ((expQLo (2 * a) : ℚ) : ℝ) := by exact_mod_cast hLoA
  have hexp1 : Real.exp (2 * ((a : ℚ) : ℝ)) ≤ Real.exp (2 * x) :=
    Real.exp_le_exp.mpr (by linarith)
  have hexp2 : Real.exp (2 * x) ≤ Real.exp (2 * ((b : ℚ) : ℝ)) :=
    Real.exp_le_exp.mpr (by linarith)
  have hd1 : (0 : ℝ) < ((expQLo (2 * a) : ℚ) : ℝ) + 1 := by linarith
  have hd2 : (0 : ℝ) < Real.exp (2 * x) + 1 := by positivity
  constructor
  · calc (lo : ℝ) ≤ ((1 - 2 / (expQLo (2 * a) + 1) : ℚ) : ℝ) := by exact_mod_cast hlo
      _ = 1 - 2 / (((expQLo (2 * a) : ℚ) : ℝ) + 1) := by push_cast; ring
      _ ≤ 1 - 2 / (Real.exp (2 * x) + 1) := by
          have h2le : 2 / (Real.exp (2 * x) + 1) ≤
              2 / (((expQLo (2 * a) : ℚ) : ℝ) + 1) := by
            apply div_le_div_of_nonneg_left (by norm_num) hd1
            linarith
          linarith
  · calc 1 - 2 / (Real.exp (2 * x) + 1)
        ≤ 1 - 2 / (((expQHi (2 * b) : ℚ) : ℝ) + 1) := by
          have hd3 : (0 : ℝ) < ((expQHi (2 * b) : ℚ) : ℝ) + 1 := by
            have : (0 : ℝ) < Real.exp (2 * ((b : ℚ) : ℝ)) := Real.exp_pos _
            linarith
          have h2le : 2 / (((expQHi (2 * b) : ℚ) : ℝ) + 1) ≤
              2 / (Real.exp (2 * x) + 1) := by
            apply div_le_div_of_nonneg_left (by norm_num) hd2
            linarith
          linarith
      _ = ((1 - 2 / (expQHi (2 * b) + 1) : ℚ) : ℝ) := by push_cast; ring
      _ ≤ (hi : ℝ) := by exact_mod_cast hhi

theorem mul_bounds_of {a b c d x y lo hi : ℝ} (hax : a ≤ x) (hxb : x ≤ b)
    (hcy : c ≤ y) (hyd : y ≤ d)
    (h1 : lo ≤ a * c) (h2 : lo ≤ a * d) (h3 : lo ≤ b * c) (h4 : lo ≤ b * d)
    (h5 : a * c ≤ hi) (h6 : a * d ≤ hi) (h7 : b * c ≤ hi) (h8 : b * d ≤ hi) :
    lo ≤ x * y ∧ x * y ≤ hi := by
  rcases le_total 0 y with hy | hy
  · constructor
    · have hxy : a * y ≤ x * y := mul_le_mul_of_nonneg_right hax hy
      rcases le_total 0 a with ha | ha
      · have : a * c ≤ a * y := mul_le_mul_of_nonneg_left hcy ha
        linarith
      · have : a * d ≤ a * y := mul_le_mul_of_nonpos_left hyd ha
        linarith
    · have hxy : x * y ≤ b * y := mul_le_mul_of_nonneg_right hxb hy
      rcases le_total 0 b with hb | hb
      · have : b * y ≤ b * d := mul_le_mul_of_nonneg_left hyd hb
        linarith
      · have : b * y ≤ b * c := mul_le_mul_of_nonpos_left hcy hb
        linarith
  · constructor
    · have hxy : b * y ≤ x * y := mul_le_mul_of_nonpos_right hxb hy
      rcases le_total 0 b with hb | hb
      · have : b * c ≤ b * y := mul_le_mul_of_nonneg_left hcy hb
        linarith
      · have : b * d ≤ b * y := mul_le_mul_of_nonpos_left hyd hb
        linarith
    · have hxy : x * y ≤ a * y := mul_le_mul_of_nonpos_right hax hy
      rcases le_total 0 a with ha | ha
      · have : a * y ≤ a * d := mul_le_mul_of_nonneg_left hyd ha
        linarith
      · have : a * y ≤ a * c := mul_le_mul_of_nonpos_left hcy ha
        linarith
/-- The fixture's update gate 0: its exact pre-activation. -/
theorem gateZ0_eq : gruGate xQ hQ wzQ uzQ bzQ 0 = sigmoidR ((111/100 : ℚ) : ℝ) := by
  have h : dotColQ xQ wzQ 0 + dotColQ hQ uzQ 0 + bzQ.getD 0 0 = 111/100 := by
    norm_num [dotColQ, xQ, hQ, wzQ, uzQ, bzQ,
      show List.range 3 = [0, 1, 2] from rfl,
      show List.range 4 = [0, 1, 2, 3] from rfl]
  rw [gruGate, h]

/-- Certified bounds on the fixture's update gate 0. -/
theorem gateZ0_bounds : (752129/1000000 : ℝ) ≤ gruGate xQ hQ wzQ uzQ bzQ 0 ∧
    gruGate xQ hQ wzQ uzQ bzQ 0 ≤ (75213/100000 : ℝ) := by
  obtain ⟨h1, h2⟩ := sigmoid_bounds (111/100) (752129/1000000) (75213/100000)
    (by rw [abs_le]; constructor <;> norm_num)
    (by norm_num [expQHi, expTaylor, expErr])
    (by norm_num [expQLo, expTaylor, expErr])
  rw [gateZ0_eq]
  push_cast at h1 h2 ⊢
  exact ⟨h1, h2⟩

/-- The fixture's update gate 1: its exact pre-activation. -/
theorem gateZ1_eq : gruGate xQ hQ wzQ uzQ bzQ 1 = sigmoidR ((177/100 : ℚ) : ℝ) := by
  have h : dotColQ xQ wzQ 1 + dotColQ hQ uzQ 1 + bzQ.getD 1 0 = 177/100 := by
    norm_num [dotColQ, xQ, hQ, wzQ, uzQ, bzQ,
      show List.range 3 = [0, 1, 2] from rfl,
      show List.range 4 = [0, 1, 2, 3] from rfl]
  rw [gruGate, h]

/-- Certified bounds on the fixture's update gate 1. -/
theorem gateZ1_bounds : (854457/1000000 : ℝ) ≤ gruGate xQ hQ wzQ uzQ bzQ 1 ∧
    gruGate xQ hQ wzQ uzQ bzQ 1 ≤ (427229/500000 : ℝ) := by
  obtain ⟨h1, h2⟩ := sigmoid_bounds (177/100) (854457/1000000) (427229/500000)
    (by rw [abs_le]; constructor <;> norm_num)
    (by norm_num [expQHi, expTaylor, expErr])
    (by norm_num [expQLo, expTaylor, expErr])
  rw [gateZ1_eq]
  push_cast at h1 h2 ⊢
  exact ⟨h1, h2⟩

/-- The fixture's update gate 2: its exact pre-activation. -/
theorem gateZ2_eq : gruGate xQ hQ wzQ uzQ bzQ 2 = sigmoidR (((-271/100) : ℚ) : ℝ) := by
  have h : dotColQ xQ wzQ 2 + dotColQ hQ uzQ 2 + bzQ.getD 2 0 = (-271/100) := by
    norm_num [dotColQ, xQ, hQ, wzQ, uzQ, bzQ,
      show List.range 3 = [0, 1, 2] from rfl,
      show List.range 4 = [0, 1, 2, 3] from rfl]
  rw [gruGate, h]

/-- Certified bounds on the fixture's update gate 2. -/
theorem gateZ2_bounds : (12477/200000 : ℝ) ≤ gruGate xQ hQ wzQ uzQ bzQ 2 ∧
    gruGate xQ hQ wzQ uzQ bzQ 2 ≤ (31193/500000 : ℝ) := by
  obtain ⟨h1, h2⟩ := sigmoid_bounds ((-271/100)) (12477/200000) (31193/500000)
    (by rw [abs_le]; constructor <;> norm_num)
    (by norm_num [expQHi, expTaylor, expErr])
    (by norm_num [expQLo, expTaylor, expErr])
  rw [gateZ2_eq]
  push_cast at h1 h2 ⊢
  exact ⟨h1, h2⟩

/-- The fixture's update gate 3: its exact pre-activation. -/
theorem gateZ3_eq : gruGate xQ hQ wzQ uzQ bzQ 3 = sigmoidR (((-439/100) : ℚ) : ℝ) := by
  have h : dotColQ xQ wzQ 3 + dotColQ hQ uzQ 3 + bzQ.getD 3 0 = (-439/100) := by
    norm_num [dotColQ, xQ, hQ, wzQ, uzQ, bzQ,
      show List.range 3 = [0, 1, 2] from rfl,
      show List.range 4 = [0, 1, 2, 3] from rfl]
  rw [gruGate, h]

/-- Certified bounds on the fixture's update gate 3. -/
theorem gateZ3_bounds : (1531/125000 : ℝ) ≤ gruGate xQ hQ wzQ uzQ bzQ 3 ∧
    gruGate xQ hQ wzQ uzQ bzQ 3 ≤ (12249/1000000 : ℝ) := by
  obtain ⟨h1, h2⟩ := sigmoid_bounds ((-439/100)) (1531/125000) (12249/1000000)
    (by rw [abs_le]; constructor <;> norm_num)
    (by norm_num [expQHi, expTaylor, expErr])
    (by norm_num [expQLo, expTaylor, expErr])
  rw [gateZ3_eq]
  push_cast at h1 h2 ⊢
  exact ⟨h1, h2⟩

/-- The fixture's reset gate 0: its exact pre-activation. -/
theorem gateR0_eq : gruGate xQ hQ wrQ urQ brQ 0 = sigmoidR (((-22/25) : ℚ) : ℝ) := by
  have h : dotColQ xQ wrQ 0 + dotColQ hQ urQ 0 + brQ.getD 0 0 = (-22/25) := by
    norm_num [dotColQ, xQ, hQ, wrQ, urQ, brQ,
      show List.range 3 = [0, 1, 2] from rfl,
      show List.range 4 = [0, 1, 2, 3] from rfl]
  rw [gruGate, h]

/-- Certified bounds on the fixture's reset gate 0. -/
theorem gateR0_bounds : (293177/1000000 : ℝ) ≤ gruGate xQ hQ wrQ urQ brQ 0 ∧
    gruGate xQ hQ wrQ urQ brQ 0 ≤ (146589/500000 : ℝ) := by
  obtain ⟨h1, h2⟩ := sigmoid_bounds ((-22/25)) (293177/1000000) (146589/500000)
    (by rw [abs_le]; constructor <;> norm_num)
    (by norm_num [expQHi, expTaylor, expErr])
    (by norm_num [expQLo, expTaylor, expErr])
  rw [gateR0_eq]
  push_cast at h1 h2 ⊢
  exact ⟨h1, h2⟩

/-- The fixture's reset gate 1: its exact pre-activation. -/
theorem gateR1_eq : gruGate xQ hQ wrQ urQ brQ 1 = sigmoidR ((44/25 : ℚ) : ℝ) := by
  have h : dotColQ xQ wrQ 1 + dotColQ hQ urQ 1 + brQ.getD 1 0 = 44/25 := by
    norm_num [dotColQ, xQ, hQ, wrQ, urQ, brQ,
      show List.range 3 = [0, 1, 2] from rfl,
      show List.range 4 = [0, 1, 2, 3] from rfl]
  rw [gruGate, h]

/-- Certified bounds on the fixture's reset gate 1. -/
theorem gateR1_bounds : (853209/1000000 : ℝ) ≤ gruGate xQ hQ wrQ urQ brQ 1 ∧
    gruGate xQ hQ wrQ urQ brQ 1 ≤ (85321/100000 : ℝ) := by
  obtain ⟨h1, h2⟩ := sigmoid_bounds (44/25) (853209/1000000) (85321/100000)
    (by rw [abs_le]; constructor <;> norm_num)
    (by norm_num [expQHi, expTaylor, expErr])
    (by norm_num [expQLo, expTaylor, expErr])
  rw [gateR1_eq]
  push_cast at h1 h2 ⊢
  exact ⟨h1, h2⟩

/-- The fixture's reset gate 2: its exact pre-activation. -/
theorem gateR2_eq : gruGate xQ hQ wrQ urQ brQ 2 = sigmoidR (((-66/25) : ℚ) : ℝ) := by
  have h : dotColQ xQ wrQ 2 + dotColQ hQ urQ 2 + brQ.getD 2 0 = (-66/25) := by
    norm_num [dotColQ, xQ, hQ, wrQ, urQ, brQ,
      show List.range 3 = [0, 1, 2] from rfl,
      show List.range 4 = [0, 1, 2, 3] from rfl]
  rw [gruGate, h]

/-- Certified bounds on the fixture's reset gate 2. -/
theorem gateR2_bounds : (4163/62500 : ℝ) ≤ gruGate xQ hQ wrQ urQ brQ 2 ∧
    gruGate xQ hQ wrQ urQ brQ 2 ≤ (66609/1000000 : ℝ) := by
  obtain ⟨h1, h2⟩ := sigmoid_bounds ((-66/25)) (4163/62500) (66609/1000000)
    (by rw [abs_le]; constructor <;> norm_num)
    (by norm_num [expQHi, expTaylor, expErr])
    (by norm_num [expQLo, expTaylor, expErr])
  rw [gateR2_eq]
  push_cast at h1 h2 ⊢
  exact ⟨h1, h2⟩

/-- The fixture's reset gate 3: its exact pre-activation. -/
theorem gateR3_eq : gruGate xQ hQ wrQ urQ brQ 3 = sigmoidR (((-483/100) : ℚ) : ℝ) := by
  have h : dotColQ xQ wrQ 3 + dotColQ hQ urQ 3 + brQ.getD 3 0 = (-483/100) := by
    norm_num [dotColQ, xQ, hQ, wrQ, urQ, brQ,
      show List.range 3 = [0, 1, 2] from rfl,
      show List.range 4 = [0, 1, 2, 3] from rfl]
  rw [gruGate, h]

/-- Certified bounds on the fixture's reset gate 3. -/
theorem gateR3_bounds : (7923/1000000 : ℝ) ≤ gruGate xQ hQ wrQ urQ brQ 3 ∧
    gruGate xQ hQ wrQ urQ brQ 3 ≤ (1981/250000 : ℝ) := by
  obtain ⟨h1, h2⟩ := sigmoid_bounds ((-483/100)) (7923/1000000) (1981/250000)
    (by rw [abs_le]; constructor <;> norm_num)
    (by norm_num [expQHi, expTaylor, expErr])
    (by norm_num [expQLo, expTaylor, expErr])
  rw [gateR3_eq]
  push_cast at h1 h2 ⊢
  exact ⟨h1, h2⟩

/-- The fixture's candidate pre-activation 0, in terms of the reset gates. -/
theorem cand0_eq : gruCandidate xQ hQ wrQ urQ brQ whQ uhQ bhQ 0 =
    Real.tanh ((((-99/100) : ℚ) : ℝ) +
      (gruGate xQ hQ wrQ urQ brQ 0 * ((3/100 : ℚ) : ℝ) +
        (gruGate xQ hQ wrQ urQ brQ 1 * ((1/25 : ℚ) : ℝ) +
          (gruGate xQ hQ wrQ urQ brQ 2 * ((3/100 : ℚ) : ℝ) +
            (gruGate xQ hQ wrQ urQ brQ 3 * ((9/100 : ℚ) : ℝ) + 0))))) := by
  rw [gruCandidate]
  norm_num [dotColQ, xQ, hQ, whQ, uhQ, bhQ,
    show List.range 3 = [0, 1, 2] from rfl,
    show List.range 4 = [0, 1, 2, 3] from rfl]

/-- Certified bounds on the fixture's candidate state 0. -/
theorem cand0_bounds :
    ((-368611/500000) : ℝ) ≤ gruCandidate xQ hQ wrQ urQ brQ whQ uhQ bhQ 0 ∧
    gruCandidate xQ hQ wrQ urQ brQ whQ uhQ bhQ 0 ≤ ((-737221/1000000) : ℝ) := by
  rw [cand0_eq]
  have hb := tanh_bounds ((-47218251/50000000)) ((-94436483/100000000)) ((-368611/500000)) ((-737221/1000000))
    ((((-99/100) : ℚ) : ℝ) +
      (gruGate xQ hQ wrQ urQ brQ 0 * ((3/100 : ℚ) : ℝ) +
        (gruGate xQ hQ wrQ urQ brQ 1 * ((1/25 : ℚ) : ℝ) +
          (gruGate xQ hQ wrQ urQ brQ 2 * ((3/100 : ℚ) : ℝ) +
            (gruGate xQ hQ wrQ urQ brQ 3 * ((9/100 : ℚ) : ℝ) + 0)))))
    (by push_cast
        linarith [gateR0_bounds.1, gateR0_bounds.2, gateR1_bounds.1,
          gateR1_bounds.2, gateR2_bounds.1, gateR2_bounds.2,
          gateR3_bounds.1, gateR3_bounds.2])
    (by push_cast
        linarith [gateR0_bounds.1, gateR0_bounds.2, gateR1_bounds.1,
          gateR1_bounds.2, gateR2_bounds.1, gateR2_bounds.2,
          gateR3_bounds.1, gateR3_bounds.2])
    (by rw [abs_le]; constructor <;> norm_num)
    (by rw [abs_le]; constructor <;> norm_num)
    (by norm_num [expQLo, expTaylor, expErr])
    (by norm_num [expQHi, expTaylor, expErr])
  obtain ⟨h1, h2⟩ := hb
  push_cast at h1 h2 ⊢
  exact ⟨h1, h2⟩

/-- The fixture's candidate pre-activation 1, in terms of the reset gates. -/
theorem cand1_eq : gruCandidate xQ hQ wrQ urQ brQ whQ uhQ bhQ 1 =
    Real.tanh (((33/20 : ℚ) : ℝ) +
      (gruGate xQ hQ wrQ urQ brQ 0 * ((3/50 : ℚ) : ℝ) +
        (gruGate xQ hQ wrQ urQ brQ 1 * (((-1/10) : ℚ) : ℝ) +
          (gruGate xQ hQ wrQ urQ brQ 2 * (((-3/25) : ℚ) : ℝ) +
            (gruGate xQ hQ wrQ urQ brQ 3 * (((-3/50) : ℚ) : ℝ) + 0))))) := by
  rw [gruCandidate]
  norm_num [dotColQ, xQ, hQ, whQ, uhQ, bhQ,
    show List.range 3 = [0, 1, 2] from rfl,
    show List.range 4 = [0, 1, 2, 3] from rfl]

/-- Certified bounds on the fixture's candidate state 1. -/
theorem cand1_bounds :
    (229407/250000 : ℝ) ≤ gruCandidate xQ hQ wrQ urQ brQ whQ uhQ bhQ 1 ∧
    gruCandidate xQ hQ wrQ urQ brQ whQ uhQ bhQ 1 ≤ (917629/1000000 : ℝ) := by
  rw [cand1_eq]
  have hb := tanh_bounds (15738011/10000000) (9836259/6250000) (229407/250000) (917629/1000000)
    (((33/20 : ℚ) : ℝ) +
      (gruGate xQ hQ wrQ urQ brQ 0 * ((3/50 : ℚ) : ℝ) +
        (gruGate xQ hQ wrQ urQ brQ 1 * (((-1/10) : ℚ) : ℝ) +
          (gruGate xQ hQ wrQ urQ brQ 2 * (((-3/25) : ℚ) : ℝ) +
            (gruGate xQ hQ wrQ urQ brQ 3 * (((-3/50) : ℚ) : ℝ) + 0)))))
    (by push_cast
        linarith [gateR0_bounds.1, gateR0_bounds.2, gateR1_bounds.1,
          gateR1_bounds.2, gateR2_bounds.1, gateR2_bounds.2,
          gateR3_bounds.1, gateR3_bounds.2])
    (by push_cast
        linarith [gateR0_bounds.1, gateR0_bounds.2, gateR1_bounds.1,
          gateR1_bounds.2, gateR2_bounds.1, gateR2_bounds.2,
          gateR3_bounds.1, gateR3_bounds.2])
    (by rw [abs_le]; constructor <;> norm_num)
    (by rw [abs_le]; constructor <;> norm_num)
    (by norm_num [expQLo, expTaylor, expErr])
    (by norm_num [expQHi, expTaylor, expErr])
  obtain ⟨h1, h2⟩ := hb
  push_cast at h1 h2 ⊢
  exact ⟨h1, h2⟩

/-- The fixture's candidate pre-activation 2, in terms of the reset gates. -/
theorem cand2_eq : gruCandidate xQ hQ wrQ urQ brQ whQ uhQ bhQ 2 =
    Real.tanh ((((-77/25) : ℚ) : ℝ) +
      (gruGate xQ hQ wrQ urQ brQ 0 * ((9/100 : ℚ) : ℝ) +
        (gruGate xQ hQ wrQ urQ brQ 1 * ((4/25 : ℚ) : ℝ) +
          (gruGate xQ hQ wrQ urQ brQ 2 * ((21/100 : ℚ) : ℝ) +
            (gruGate xQ hQ wrQ urQ brQ 3 * ((3/50 : ℚ) : ℝ) + 0))))) := by
  rw [gruCandidate]
  norm_num [dotColQ, xQ, hQ, whQ, uhQ, bhQ,
    show List.range 3 = [0, 1, 2] from rfl,
    show List.range 4 = [0, 1, 2, 3] from rfl]

/-- Certified bounds on the fixture's candidate state 2. -/
theorem cand2_bounds :
    ((-198799/200000) : ℝ) ≤ gruCandidate xQ hQ wrQ urQ brQ whQ uhQ bhQ 2 ∧
    gruCandidate xQ hQ wrQ urQ brQ whQ uhQ bhQ 2 ≤ ((-496997/500000) : ℝ) := by
  rw [cand2_eq]
  have hb := tanh_bounds ((-290263757/100000000)) ((-58052741/20000000)) ((-198799/200000)) ((-496997/500000))
    ((((-77/25) : ℚ) : ℝ) +
      (gruGate xQ hQ wrQ urQ brQ 0 * ((9/100 : ℚ) : ℝ) +
        (gruGate xQ hQ wrQ urQ brQ 1 * ((4/25 : ℚ) : ℝ) +
          (gruGate xQ hQ wrQ urQ brQ 2 * ((21/100 : ℚ) : ℝ) +
            (gruGate xQ hQ wrQ urQ brQ 3 * ((3/50 : ℚ) : ℝ) + 0)))))
    (by push_cast
        linarith [gateR0_bounds.1, gateR0_bounds.2, gateR1_bounds.1,
          gateR1_bounds.2, gateR2_bounds.1, gateR2_bounds.2,
          gateR3_bounds.1, gateR3_bounds.2])
    (by push_cast
        linarith [gateR0_bounds.1, gateR0_bounds.2, gateR1_bounds.1,
          gateR1_bounds.2, gateR2_bounds.1, gateR2_bounds.2,
          gateR3_bounds.1, gateR3_bounds.2])
    (by rw [abs_le]; constructor <;> norm_num)
    (by rw [abs_le]; constructor <;> norm_num)
    (by norm_num [expQLo, expTaylor, expErr])
    (by norm_num [expQHi, expTaylor, expErr])
  obtain ⟨h1, h2⟩ := hb
  push_cast at h1 h2 ⊢
  exact ⟨h1, h2⟩

/-- The fixture's candidate pre-activation 3, in terms of the reset gates. -/
theorem cand3_eq : gruCandidate xQ hQ wrQ urQ brQ whQ uhQ bhQ 3 =
    Real.tanh ((((-84/25) : ℚ) : ℝ) +
      (gruGate xQ hQ wrQ urQ brQ 0 * (((-9/100) : ℚ) : ℝ) +
        (gruGate xQ hQ wrQ urQ brQ 1 * (((-11/50) : ℚ) : ℝ) +
          (gruGate xQ hQ wrQ urQ brQ 2 * (((-3/10) : ℚ) : ℝ) +
            (gruGate xQ hQ wrQ urQ brQ 3 * ((9/100 : ℚ) : ℝ) + 0))))) := by
  rw [gruCandidate]
  norm_num [dotColQ, xQ, hQ, whQ, uhQ, bhQ,
    show List.range 3 = [0, 1, 2] from rfl,
    show List.range 4 = [0, 1, 2, 3] from rfl]

/-- Certified bounds on the fixture's candidate state 3. -/
theorem cand3_bounds :
    ((-998489/1000000) : ℝ) ≤ gruCandidate xQ hQ wrQ urQ brQ whQ uhQ bhQ 3 ∧
    gruCandidate xQ hQ wrQ urQ brQ whQ uhQ bhQ 3 ≤ ((-124811/125000) : ℝ) := by
  rw [cand3_eq]
  have hb := tanh_bounds ((-71867237/20000000)) ((-71867223/20000000)) ((-998489/1000000)) ((-124811/125000))
    ((((-84/25) : ℚ) : ℝ) +
      (gruGate xQ hQ wrQ urQ brQ 0 * (((-9/100) : ℚ) : ℝ) +
        (gruGate xQ hQ wrQ urQ brQ 1 * (((-11/50) : ℚ) : ℝ) +
          (gruGate xQ hQ wrQ urQ brQ 2 * (((-3/10) : ℚ) : ℝ) +
            (gruGate xQ hQ wrQ urQ brQ 3 * ((9/100 : ℚ) : ℝ) + 0)))))
    (by push_cast
        linarith [gateR0_bounds.1, gateR0_bounds.2, gateR1_bounds.1,
          gateR1_bounds.2, gateR2_bounds.1, gateR2_bounds.2,
          gateR3_bounds.1, gateR3_bounds.2])
    (by push_cast
        linarith [gateR0_bounds.1, gateR0_bounds.2, gateR1_bounds.1,
          gateR1_bounds.2, gateR2_bounds.1, gateR2_bounds.2,
          gateR3_bounds.1, gateR3_bounds.2])
    (by rw [abs_le]; constructor <;> norm_num)
    (by rw [abs_le]; constructor <;> norm_num)
    (by norm_num [expQLo, expTaylor, expErr])
    (by norm_num [expQHi, expTaylor, expErr])
  obtain ⟨h1, h2⟩ := hb
  push_cast at h1 h2 ⊢
  exact ⟨h1, h2⟩

/-- C7: the fixture GRU (input size 3, state size 4, the six weight matrices
and three biases of the repository's GRU Forward test) produces a forward
output within 1e-3 of [-0.1752, 0.1165, -0.9301, -0.9866], component-wise. -/
theorem gru_forward_fixture :
    |gruOutF 0 + (219/1250 : ℝ)| ≤ 1/1000 ∧
    |gruOutF 1 - (233/2000 : ℝ)| ≤ 1/1000 ∧
    |gruOutF 2 + (9301/10000 : ℝ)| ≤ 1/1000 ∧
    |gruOutF 3 + (4933/5000 : ℝ)| ≤ 1/1000 := by
  have hy0 : gruOutF 0 = gruGate xQ hQ wzQ uzQ bzQ 0 * ((1/100 : ℚ) : ℝ) +
      (1 - gruGate xQ hQ wzQ uzQ bzQ 0) * gruCandidate xQ hQ wrQ urQ brQ whQ uhQ bhQ 0 := by
    rw [gruOutF, gruOut]
    norm_num [hQ]
  have hz0 := gateZ0_bounds
  have hc0 := cand0_bounds
  have ho0 : (24787/100000 : ℝ) ≤ 1 - gruGate xQ hQ wzQ uzQ bzQ 0 ∧
      1 - gruGate xQ hQ wzQ uzQ bzQ 0 ≤ (247871/1000000 : ℝ) :=
    ⟨by linarith [hz0.2], by linarith [hz0.1]⟩
  have hp0 := mul_bounds_of ho0.1 ho0.2 hc0.1 hc0.2
    (show ((-91367977181/500000000000) : ℝ) ≤ (24787/100000) * ((-368611/500000)) by norm_num)
    (show ((-91367977181/500000000000) : ℝ) ≤ (24787/100000) * ((-737221/1000000)) by norm_num)
    (show ((-91367977181/500000000000) : ℝ) ≤ (247871/1000000) * ((-368611/500000)) by norm_num)
    (show ((-91367977181/500000000000) : ℝ) ≤ (247871/1000000) * ((-737221/1000000)) by norm_num)
    (show (24787/100000) * ((-368611/500000)) ≤ ((-18273496927/100000000000) : ℝ) by norm_num)
    (show (24787/100000) * ((-737221/1000000)) ≤ ((-18273496927/100000000000) : ℝ) by norm_num)
    (show (247871/1000000) * ((-368611/500000)) ≤ ((-18273496927/100000000000) : ℝ) by norm_num)
    (show (247871/1000000) * ((-737221/1000000)) ≤ ((-18273496927/100000000000) : ℝ) by norm_num)
  have hgoal0 : |gruOutF 0 + (219/1250 : ℝ)| ≤ 1/1000 := by
    rw [hy0, abs_le]
    constructor <;> push_cast <;> linarith [hz0.1, hz0.2, hp0.1, hp0.2]
  have hy1 : gruOutF 1 = gruGate xQ hQ wzQ uzQ bzQ 1 * (((-1/50) : ℚ) : ℝ) +
      (1 - gruGate xQ hQ wzQ uzQ bzQ 1) * gruCandidate xQ hQ wrQ urQ brQ whQ uhQ bhQ 1 := by
    rw [gruOutF, gruOut]
    norm_num [hQ]
  have hz1 := gateZ1_bounds
  have hc1 := cand1_bounds
  have ho1 : (72771/500000 : ℝ) ≤ 1 - gruGate xQ hQ wzQ uzQ bzQ 1 ∧
      1 - gruGate xQ hQ wzQ uzQ bzQ 1 ≤ (145543/1000000 : ℝ) :=
    ⟨by linarith [hz1.2], by linarith [hz1.1]⟩
  have hp1 := mul_bounds_of ho1.1 ho1.2 hc1.1 hc1.2
    (show (16694176797/125000000000 : ℝ) ≤ (72771/500000) * (229407/250000) by norm_num)
    (show (16694176797/125000000000 : ℝ) ≤ (72771/500000) * (917629/1000000) by norm_num)
    (show (16694176797/125000000000 : ℝ) ≤ (145543/1000000) * (229407/250000) by norm_num)
    (show (16694176797/125000000000 : ℝ) ≤ (145543/1000000) * (917629/1000000) by norm_num)
    (show (72771/500000) * (229407/250000) ≤ (133554477547/1000000000000 : ℝ) by norm_num)
    (show (72771/500000) * (917629/1000000) ≤ (133554477547/1000000000000 : ℝ) by norm_num)
    (show (145543/1000000) * (229407/250000) ≤ (133554477547/1000000000000 : ℝ) by norm_num)
    (show (145543/1000000) * (917629/1000000) ≤ (133554477547/1000000000000 : ℝ) by norm_num)
  have hgoal1 : |gruOutF 1 - (233/2000 : ℝ)| ≤ 1/1000 := by
    rw [hy1, abs_le]
    constructor <;> push_cast <;> linarith [hz1.1, hz1.2, hp1.1, hp1.2]
  have hy2 : gruOutF 2 = gruGate xQ hQ wzQ uzQ bzQ 2 * ((3/100 : ℚ) : ℝ) +
      (1 - gruGate xQ hQ wzQ uzQ bzQ 2) * gruCandidate xQ hQ wrQ urQ brQ whQ uhQ bhQ 2 := by
    rw [gruOutF, gruOut]
    norm_num [hQ]
  have hz2 := gateZ2_bounds
  have hc2 := cand2_bounds
  have ho2 : (468807/500000 : ℝ) ≤ 1 - gruGate xQ hQ wzQ uzQ bzQ 2 ∧
      1 - gruGate xQ hQ wzQ uzQ bzQ 2 ≤ (187523/200000 : ℝ) :=
    ⟨by linarith [hz2.2], by linarith [hz2.1]⟩
  have hp2 := mul_bounds_of ho2.1 ho2.2 hc2.1 hc2.2
    (show ((-37279384877/40000000000) : ℝ) ≤ (468807/500000) * ((-198799/200000)) by norm_num)
    (show ((-37279384877/40000000000) : ℝ) ≤ (468807/500000) * ((-496997/500000)) by norm_num)
    (show ((-37279384877/40000000000) : ℝ) ≤ (187523/200000) * ((-198799/200000)) by norm_num)
    (show ((-37279384877/40000000000) : ℝ) ≤ (187523/200000) * ((-496997/500000)) by norm_num)
    (show (468807/500000) * ((-198799/200000)) ≤ ((-232995672579/250000000000) : ℝ) by norm_num)
    (show (468807/500000) * ((-496997/500000)) ≤ ((-232995672579/250000000000) : ℝ) by norm_num)
    (show (187523/200000) * ((-198799/200000)) ≤ ((-232995672579/250000000000) : ℝ) by norm_num)
    (show (187523/200000) * ((-496997/500000)) ≤ ((-232995672579/250000000000) : ℝ) by norm_num)
  have hgoal2 : |gruOutF 2 + (9301/10000 : ℝ)| ≤ 1/1000 := by
    rw [hy2, abs_le]
    constructor <;> push_cast <;> linarith [hz2.1, hz2.2, hp2.1, hp2.2]
  have hy3 : gruOutF 3 = gruGate xQ hQ wzQ uzQ bzQ 3 * (((-3/100) : ℚ) : ℝ) +
      (1 - gruGate xQ hQ wzQ uzQ bzQ 3) * gruCandidate xQ hQ wrQ urQ brQ whQ uhQ bhQ 3 := by
    rw [gruOutF, gruOut]
    norm_num [hQ]
  have hz3 := gateZ3_bounds
  have hc3 := cand3_bounds
  have ho3 : (987751/1000000 : ℝ) ≤ 1 - gruGate xQ hQ wzQ uzQ bzQ 3 ∧
      1 - gruGate xQ hQ wzQ uzQ bzQ 3 ≤ (123469/125000 : ℝ) :=
    ⟨by linarith [hz3.2], by linarith [hz3.1]⟩
  have hp3 := mul_bounds_of ho3.1 ho3.2 hc3.1 hc3.2
    (show ((-123282438341/125000000000) : ℝ) ≤ (987751/1000000) * ((-998489/1000000)) by norm_num)
    (show ((-123282438341/125000000000) : ℝ) ≤ (987751/1000000) * ((-124811/125000)) by norm_num)
    (show ((-123282438341/125000000000) : ℝ) ≤ (123469/125000) * ((-998489/1000000)) by norm_num)
    (show ((-123282438341/125000000000) : ℝ) ≤ (123469/125000) * ((-124811/125000)) by norm_num)
    (show (987751/1000000) * ((-998489/1000000)) ≤ ((-123282190061/125000000000) : ℝ) by norm_num)
    (show (987751/1000000) * ((-124811/125000)) ≤ ((-123282190061/125000000000) : ℝ) by norm_num)
    (show (123469/125000) * ((-998489/1000000)) ≤ ((-123282190061/125000000000) : ℝ) by norm_num)
    (show (123469/125000) * ((-124811/125000)) ≤ ((-123282190061/125000000000) : ℝ) by norm_num)
  have hgoal3 : |gruOutF 3 + (4933/5000 : ℝ)| ≤ 1/1000 := by
    rw [hy3, abs_le]
    constructor <;> push_cast <;> linarith [hz3.1, hz3.2, hp3.1, hp3.2]
  exact ⟨hgoal0, hgoal1, hgoal2, hgoal3⟩
